import Mathlib

/-!
Verification of the burble BLE host stack against its specification.

Shallow embedding of the relevant source files:
* `src/gap/uuid.rs` — UUID projections (`Uuid::as_u16`/`as_u32`/`as_u128`, `Uuid16::as_uuid`).
* `src/crypto/src/lib.rs` — the SMP cryptographic toolbox (`Nonce::g2`); the AES-CMAC core
  lives in the crate's `cmac` module which is not part of the provided sources, so it is
  modelled from the specification (AES-CMAC per RFC 4493 over AES-128 per FIPS-197).
* `src/hci/event/event.rs` and `src/hci/consts.rs` — event router state, command quota,
  and the event/filter match relation.
* `src/gatt/schema.rs` — the attribute schema: `get`, `subset`, `access_check`,
  `characteristic_for_attr` and `try_range_access`.

Machine integers are embedded as `Nat` with explicit masking where the source relies on
fixed-width behaviour.  Fallible operations return `Except`/`Option`.
-/

deriving instance DecidableEq for Except

namespace Burble

/-! ### UUID (src/gap/uuid.rs) -/

/-- Shift distance placing a SIG UUID above the base: `u128::BITS - u32::BITS`. -/
def SHIFT : Nat := 128 - 32

/-- Canonical Bluetooth base UUID `00000000-0000-1000-8000-00805F9B34FB` as a `u128`. -/
def BASE : Nat := 0x1000800000805F9B34FB

/-- Mask `!((u16::MAX as u128) << SHIFT)`; complement is taken inside 128 bits. -/
def MASK_16 : Nat := (0xFFFF <<< SHIFT) ^^^ (2 ^ 128 - 1)

/-- Mask `!((u32::MAX as u128) << SHIFT)`; complement is taken inside 128 bits. -/
def MASK_32 : Nat := (0xFFFFFFFF <<< SHIFT) ^^^ (2 ^ 128 - 1)

/-- `Uuid::as_u16`: the 16-bit SIG projection.  The `as u16` cast of the source is the
explicit `&&& 0xFFFF` truncation. -/
def Uuid.as_u16 (v : Nat) : Option Nat :=
  let w := (v >>> SHIFT) &&& 0xFFFF
  if v &&& MASK_16 = BASE ∧ 0 < w then some w else none

/-- `Uuid::as_u32`: the 32-bit SIG projection. -/
def Uuid.as_u32 (v : Nat) : Option Nat :=
  let w := (v >>> SHIFT) &&& 0xFFFFFFFF
  if v &&& MASK_32 = BASE ∧ 0xFFFF < w then some w else none

/-- `Uuid::as_u128`: the raw projection for unassigned UUIDs. -/
def Uuid.as_u128 (v : Nat) : Option Nat :=
  if v &&& MASK_32 ≠ BASE then some v else none

/-- `Uuid16::as_uuid`: place a 16-bit SIG UUID over the base. -/
def Uuid16.as_uuid (v : Nat) : Nat :=
  (v <<< SHIFT) ||| BASE

/-! ### AES-128 and AES-CMAC

Modelled from the spec: the crypto crate's `cmac` module (AES-CMAC over AES-128) is not
among the provided sources; §4.1 of the specification fixes the functions as AES-CMAC
chains, so the standard AES-CMAC (RFC 4493) over AES-128 (FIPS-197) is embedded here.
Blocks and keys are big-endian `Nat` values; byte strings are `List Nat`. -/

/-- AES S-box packed into one natural number; entry `i` occupies bits `8*i .. 8*i+8`. -/
def sboxN : Nat := 0x16bb54b00f2d99416842e6bf0d89a18cdf2855cee9871e9b948ed9691198f8e19e1dc186b95735610ef6034866b53e708a8bbd4b1f74dde8c6b4a61c2e2578ba08ae7a65eaf4566ca94ed58d6d37c8e779e4959162acd3c25c2406490a3a32e0db0b5ede14b8ee4688902a22dc4f816073195d643d7ea7c41744975fec130ccdd2f3ff1021dab6bcf5389d928f40a351a89f3c507f02f94585334d43fbaaefd0cf584c4a39becb6a5bb1fc20ed00d153842fe329b3d63b52a05a6e1b1a2c830975b227ebe28012079a059618c323c7041531d871f1e5a534ccf73f362693fdb7c072a49cafa2d4adf04759fa7dc982ca76abd7fe2b670130c56f6bf27b777c63

/-- S-box lookup. -/
def sb (x : Nat) : Nat := (sboxN >>> (8 * x)) &&& 0xFF

/-- Multiplication by `x` in GF(2^8) with the AES reduction polynomial. -/
def xtime (b : Nat) : Nat := ((b <<< 1) &&& 0xFF) ^^^ (if 0x80 ≤ b then 0x1B else 0)

/-- AES key-schedule round constants. -/
def rcon : List Nat := [0x01, 0x02, 0x04, 0x08, 0x10, 0x20, 0x40, 0x80, 0x1B, 0x36]

/-- Big-endian byte string of length `n` for a value `v`. -/
def beBytes (n v : Nat) : List Nat :=
  (List.range n).map fun i => (v >>> (8 * (n - 1 - i))) &&& 0xFF

/-- Value of a big-endian byte string. -/
def beNat (l : List Nat) : Nat :=
  l.foldl (fun acc b => (acc <<< 8) ||| (b &&& 0xFF)) 0

/-- Value of a little-endian byte string. -/
def leNat (l : List Nat) : Nat :=
  l.foldr (fun b acc => (acc <<< 8) ||| (b &&& 0xFF)) 0

/-- Apply the S-box to each byte of a 32-bit word. -/
def subWord (w : Nat) : Nat :=
  (sb ((w >>> 24) &&& 0xFF) <<< 24) ||| (sb ((w >>> 16) &&& 0xFF) <<< 16) |||
    (sb ((w >>> 8) &&& 0xFF) <<< 8) ||| sb (w &&& 0xFF)

/-- Rotate a 32-bit word left by one byte. -/
def rotWord (w : Nat) : Nat := ((w <<< 8) ||| (w >>> 24)) &&& 0xFFFFFFFF

/-- Extend a reversed key schedule by `n` further 32-bit words. -/
def keyScheduleAux : Nat → List Nat → List Nat
  | 0, acc => acc
  | n + 1, acc =>
    let i := acc.length
    let prev := acc.headI
    let w4 := (acc.get? 3).getD 0
    let t := if i % 4 = 0 then subWord (rotWord prev) ^^^ (((rcon.get? (i / 4 - 1)).getD 0) <<< 24)
             else prev
    keyScheduleAux n ((w4 ^^^ t) :: acc)

/-- AES-128 key schedule: 44 32-bit words derived from a 128-bit key. -/
def keySchedule (key : Nat) : List Nat :=
  let w0 := (key >>> 96) &&& 0xFFFFFFFF
  let w1 := (key >>> 64) &&& 0xFFFFFFFF
  let w2 := (key >>> 32) &&& 0xFFFFFFFF
  let w3 := key &&& 0xFFFFFFFF
  (keyScheduleAux 40 [w3, w2, w1, w0]).reverse

/-- Bytes of round key `r` (16 bytes, column-major, i.e. plain big-endian word order). -/
def roundKey (ws : List Nat) (r : Nat) : List Nat :=
  ((ws.drop (4 * r)).take 4).foldr (fun w acc => beBytes 4 w ++ acc) []

/-- AES SubBytes step. -/
def subBytes (s : List Nat) : List Nat := s.map sb

/-- AES ShiftRows step on the column-major byte list. -/
def shiftRows (s : List Nat) : List Nat :=
  (List.range 16).map fun i => (s.get? (4 * ((i / 4 + i % 4) % 4) + i % 4)).getD 0

/-- AES MixColumns on one column. -/
def mixColumn : List Nat → List Nat
  | [a0, a1, a2, a3] =>
    [xtime a0 ^^^ xtime a1 ^^^ a1 ^^^ a2 ^^^ a3,
     a0 ^^^ xtime a1 ^^^ xtime a2 ^^^ a2 ^^^ a3,
     a0 ^^^ a1 ^^^ xtime a2 ^^^ xtime a3 ^^^ a3,
     xtime a0 ^^^ a0 ^^^ a1 ^^^ a2 ^^^ xtime a3]
  | l => l

/-- AES MixColumns step. -/
def mixColumns (s : List Nat) : List Nat :=
  mixColumn (s.take 4) ++ mixColumn ((s.drop 4).take 4) ++
    mixColumn ((s.drop 8).take 4) ++ mixColumn (s.drop 12)

/-- AES AddRoundKey step. -/
def addRoundKey (rk s : List Nat) : List Nat := s.zipWith (· ^^^ ·) rk

/-- AES-128 block encryption of a 128-bit block under a 128-bit key. -/
def aesEncrypt (key block : Nat) : Nat :=
  let ws := keySchedule key
  let s0 := addRoundKey (roundKey ws 0) (beBytes 16 block)
  let s9 := (List.range 9).foldl
    (fun s r => addRoundKey (roundKey ws (r + 1)) (mixColumns (shiftRows (subBytes s)))) s0
  beNat (addRoundKey (roundKey ws 10) (shiftRows (subBytes s9)))

/-- Doubling in GF(2^128) used for CMAC subkey generation (RFC 4493). -/
def cmacDbl (x : Nat) : Nat :=
  if x < 2 ^ 127 then x <<< 1 else ((x <<< 1) &&& (2 ^ 128 - 1)) ^^^ 0x87

/-- CMAC final block: a complete block is masked with `k1`, a short block is padded with
`0x80 0x00 ...` and masked with `k2` (RFC 4493). -/
def cmacLast (key k1 k2 X : Nat) (msg : List Nat) : Nat :=
  if msg.length = 16 then aesEncrypt key (X ^^^ beNat msg ^^^ k1)
  else aesEncrypt key (X ^^^ beNat (msg ++ 0x80 :: List.replicate (15 - msg.length) 0) ^^^ k2)

/-- CMAC main loop: absorb `msg` into state `X`, finishing with the subkey-masked block.
Structural recursion on a fuel argument (instantiated with `msg.length`, which bounds the
number of blocks) so that the definition evaluates inside the kernel. -/
def cmacGo (key k1 k2 : Nat) : Nat → Nat → List Nat → Nat
  | 0, X, msg => cmacLast key k1 k2 X msg
  | fuel + 1, X, msg =>
    if 16 < msg.length then
      cmacGo key k1 k2 fuel (aesEncrypt key (X ^^^ beNat (msg.take 16))) (msg.drop 16)
    else cmacLast key k1 k2 X msg

/-- AES-CMAC of a byte string under a 128-bit key (RFC 4493). -/
def aesCmac (key : Nat) (msg : List Nat) : Nat :=
  let k1 := cmacDbl (aesEncrypt key 0)
  cmacGo key k1 (cmacDbl k1) msg.length 0 msg

/-- Transcribed from `Nonce::g2` (src/crypto/src/lib.rs): AES-CMAC keyed by the nonce `x`
over `u.be_bytes ++ v.be_bytes ++ y.be_bytes`, truncated `as u32`, reduced mod 1_000_000. -/
def nonce_g2 (x u v y : Nat) : Nat :=
  aesCmac x (beBytes 32 u ++ beBytes 32 v ++ beBytes 16 y) % 2 ^ 32 % 1000000

/-- The formula asserted by the specification for `g2`: the full 128-bit AES-CMAC reduced
mod 1_000_000, with no intermediate 32-bit truncation. -/
def g2_claim (x u v y : Nat) : Nat :=
  aesCmac x (beBytes 32 u ++ beBytes 32 v ++ beBytes 16 y) % 1000000

/-! ### HCI constants (src/hci/consts.rs) -/

/-- HCI command opcodes (`Opcode` in src/hci/consts.rs).  Only the identity of each
opcode matters for routing, so the numeric `(OGF << 10) | OCF` values are not carried. -/
inductive HciOpcode
  | None
  | SetEventMask
  | Reset
  | SetControllerToHostFlowControl
  | HostBufferSize
  | SetEventMaskPage2
  | WriteLeHostSupport
  | ReadLocalVersionInformation
  | ReadLocalSupportedCommands
  | ReadBufferSize
  | ReadBdAddr
  | LeSetEventMask
  | LeReadBufferSize
  | LeReadBufferSizeV2
  | LeLongTermKeyRequestReply
  | LeLongTermKeyRequestNegativeReply
  | LeSetAdvertisingSetRandomAddress
  | LeSetExtendedAdvertisingParameters
  | LeSetExtendedAdvertisingData
  | LeSetExtendedScanResponseData
  | LeSetExtendedAdvertisingEnable
  | LeReadMaximumAdvertisingDataLength
  | LeReadNumberOfSupportedAdvertisingSets
  | LeRemoveAdvertisingSet
  | LeClearAdvertisingSets
  | LeSetPeriodicAdvertisingParameters
  | LeSetPeriodicAdvertisingData
  | LeSetPeriodicAdvertisingEnable
deriving DecidableEq

/-- HCI event codes (`EventCode` in src/hci/consts.rs).  The source enum also aliases the
LE subevents as pseudo-codes `(subevent << 8) | 0x3E` for event-mask handling; those are
represented here by `EventType.Le` instead, mirroring how `Event::try_from` constructs an
`EventType` from a one-byte code. -/
inductive EventCode
  | InquiryComplete
  | InquiryResult
  | ConnectionComplete
  | ConnectionRequest
  | DisconnectionComplete
  | AuthenticationComplete
  | RemoteNameRequestComplete
  | EncryptionChangeV1
  | EncryptionChangeV2
  | ChangeConnectionLinkKeyComplete
  | LinkKeyTypeChanged
  | ReadRemoteSupportedFeaturesComplete
  | ReadRemoteVersionInformationComplete
  | QosSetupComplete
  | CommandComplete
  | CommandStatus
  | HardwareError
  | FlushOccurred
  | RoleChange
  | NumberOfCompletedPackets
  | ModeChange
  | ReturnLinkKeys
  | PinCodeRequest
  | LinkKeyRequest
  | LinkKeyNotification
  | LoopbackCommand
  | DataBufferOverflow
  | MaxSlotsChange
  | ReadClockOffsetComplete
  | ConnectionPacketTypeChanged
  | QosViolation
  | PageScanRepetitionModeChange
  | FlowSpecificationComplete
  | InquiryResultWithRssi
  | ReadRemoteExtendedFeaturesComplete
  | SynchronousConnectionComplete
  | SynchronousConnectionChanged
  | SniffSubrating
  | ExtendedInquiryResult
  | EncryptionKeyRefreshComplete
  | IoCapabilityRequest
  | IoCapabilityResponse
  | UserConfirmationRequest
  | UserPasskeyRequest
  | RemoteOobDataRequest
  | SimplePairingComplete
  | LinkSupervisionTimeoutChanged
  | EnhancedFlushComplete
  | UserPasskeyNotification
  | KeypressNotification
  | RemoteHostSupportedFeaturesNotification
  | NumberOfCompletedDataBlocks
  | LeMetaEvent
  | TriggeredClockCapture
  | SynchronizationTrainComplete
  | SynchronizationTrainReceived
  | ConnectionlessPeripheralBroadcastReceive
  | ConnectionlessPeripheralBroadcastTimeout
  | TruncatedPageComplete
  | PeripheralPageResponseTimeout
  | ConnectionlessPeripheralBroadcastChannelMapChange
  | InquiryResponseNotification
  | AuthenticatedPayloadTimeoutExpired
  | SamStatusChange
  | Vendor
deriving DecidableEq

/-- LE meta-event subevent codes.  Modelled from the spec: the `SubeventCode` enum itself
is not among the provided sources; its variants are those listed as LE subevents
(`le(0x01)` .. `le(0x23)`) in src/hci/consts.rs. -/
inductive SubeventCode
  | ConnectionComplete
  | AdvertisingReport
  | ConnectionUpdateComplete
  | ReadRemoteFeaturesComplete
  | LongTermKeyRequest
  | RemoteConnectionParameterRequest
  | DataLengthChange
  | ReadLocalP256PublicKeyComplete
  | GenerateDhKeyComplete
  | EnhancedConnectionComplete
  | DirectedAdvertisingReport
  | PhyUpdateComplete
  | ExtendedAdvertisingReport
  | PeriodicAdvertisingSyncEstablished
  | PeriodicAdvertisingReport
  | PeriodicAdvertisingSyncLost
  | ScanTimeout
  | AdvertisingSetTerminated
  | ScanRequestReceived
  | ChannelSelectionAlgorithm
  | ConnectionlessIqReport
  | ConnectionIqReport
  | CteRequestFailed
  | PeriodicAdvertisingSyncTransferReceived
  | CisEstablished
  | CisRequest
  | CreateBigComplete
  | TerminateBigComplete
  | BigSyncEstablished
  | BigSyncLost
  | RequestPeerScaComplete
  | PathLossThreshold
  | TransmitPowerReporting
  | BigInfoAdvertisingReport
  | SubrateChange
deriving DecidableEq

/-- Device connection role (`Role` in src/hci/consts.rs). -/
inductive Role
  | Central
  | Peripheral
deriving DecidableEq

/-! ### HCI event router (src/hci/event/event.rs) -/

/-- HCI event or LE subevent code (`EventType`). -/
inductive EventType
  | Hci (c : EventCode)
  | Le (c : SubeventCode)
deriving DecidableEq

/-- `EventType::is_cmd`: whether the event is `CommandComplete` or `CommandStatus`. -/
def EventType.is_cmd : EventType → Bool
  | .Hci .CommandComplete => true
  | .Hci .CommandStatus => true
  | _ => false

/-- Decoded HCI event header (`Event`).  Only the fields consumed by the router are
carried: `cmd_quota` and `opcode` are parsed from command events by `Event::try_from`,
and `role` models the role field that `LeConnectionComplete::from` (src/hci/event/le.rs,
not among the provided sources) decodes from the parameters of the two LE
connection-complete subevents. -/
structure Event where
  typ : EventType
  cmd_quota : Nat
  opcode : HciOpcode
  role : Role

/-- Event matching criteria (`EventFilter`). -/
inductive EventFilter
  | Command (opcode : HciOpcode)
  | AdvManager
  | ChanManager
  | SecDb
deriving DecidableEq

/-- `EventFilter::conflicts_with`: two filters conflict iff they are equal. -/
def EventFilter.conflicts_with (f other : EventFilter) : Bool :=
  decide (f = other)

/-- Registered event waiter (`Waiter`).  The `ready` slot holds a read-lock guard in the
source; here only its presence is modelled. -/
structure Waiter where
  id : Nat
  filter : EventFilter
  ready : Bool

/-- Queue of event waiters guarded by the router mutex (`Waiters`). -/
structure Waiters where
  queue : List Waiter
  next_id : Nat
  cmd_quota : Nat

/-- `Waiters::default`: empty queue, id counter 0, command quota 1. -/
def Waiters.init : Waiters :=
  { queue := [], next_id := 0, cmd_quota := 1 }

/-- Router errors surfaced by `EventRouter::register`.  Modelled from the spec: the host
error enum is not among the provided sources; §7 names `FilterConflict` and
`CommandQuotaExceeded` as the router's error kinds. -/
inductive HciError
  | FilterConflict
  | CommandQuotaExceeded
deriving DecidableEq

/-- `EventRouter::register`: reject conflicting filters, apply the command-quota rule
(`Reset` zeroes the quota, any other command decrements it, a zero quota rejects the
registration), then append a waiter with the next id. -/
def register (ws : Waiters) (f : EventFilter) : Except HciError Waiters :=
  if ws.queue.any fun w => f.conflicts_with w.filter then .error .FilterConflict
  else
    match
      (match f with
       | .Command opcode =>
         if ws.cmd_quota = 0 then none
         else if opcode = HciOpcode.Reset then some 0
         else some (ws.cmd_quota - 1)
       | _ => some ws.cmd_quota) with
    | none => .error .CommandQuotaExceeded
    | some q =>
      .ok { queue := ws.queue ++ [{ id := ws.next_id, filter := f, ready := false }],
            next_id := ws.next_id + 1,
            cmd_quota := q }

/-- Quota update performed by `EventRouter::recv_event` after decoding an event:
`if evt.typ.is_cmd() { ws.cmd_quota = evt.cmd_quota; }`. -/
def recv_update (ws : Waiters) (evt : Event) : Waiters :=
  if evt.typ.is_cmd then { ws with cmd_quota := evt.cmd_quota } else ws

/-- `EventGuard::matches` (the name `matches` is reserved in Lean): whether a received
event matches a filter. -/
def eventMatches (e : Event) (f : EventFilter) : Bool :=
  match e.typ with
  | .Hci .DisconnectionComplete | .Hci .NumberOfCompletedPackets =>
    match f with
    | .ChanManager => true
    | _ => false
  | .Hci .CommandComplete | .Hci .CommandStatus =>
    match f with
    | .Command op => decide (op = e.opcode)
    | _ => false
  | .Le .ConnectionComplete | .Le .EnhancedConnectionComplete =>
    match f with
    | .Command _ => false
    | .AdvManager => decide (e.role = Role.Peripheral)
    | .ChanManager => true
    | .SecDb => true
  | .Le .LongTermKeyRequest =>
    match f with
    | .SecDb => true
    | _ => false
  | .Le .AdvertisingSetTerminated =>
    match f with
    | .AdvManager => true
    | _ => false
  | _ => false

/-! ### ATT types

Modelled from the spec: the `att` module is not among the provided sources.  §3 fixes the
request context as `(opcode, access mode, security level achieved on this link)` and the
permissions as independent read/write security requirements; §4.5 fixes the error codes
produced by the permission check.  The LESC-only flag of §3 strengthens the encryption
requirement and is not distinguished by any claim, so it is not modelled separately.
Attribute handles (`att::Handle`, a `NonZeroU16` in the source) are embedded as plain
`Nat`; positivity appears as a hypothesis where theorems need it. -/

/-- Inclusive handle range (`HandleRange`).  The source's `end()` accessor is named
`stop` because `end` is reserved in Lean. -/
structure HandleRange where
  start : Nat
  stop : Nat
deriving DecidableEq

/-- ATT opcodes reaching the schema access check (`att::Opcode`, modelled subset: all
read/write-class opcodes from the §4.5 table plus representative others for the
catch-all arm). -/
inductive AttOpcode
  | ExchangeMtuReq
  | FindInformationReq
  | FindByTypeValueReq
  | ReadByTypeReq
  | ReadReq
  | ReadBlobReq
  | ReadMultipleReq
  | ReadByGroupTypeReq
  | WriteReq
  | WriteCmd
  | PrepareWriteReq
  | ExecuteWriteReq
  | ReadMultipleVariableReq
  | SignedWriteCmd
deriving DecidableEq

/-- ATT error codes used by the schema (`att::ErrorCode`, modelled subset). -/
inductive ErrorCode
  | InvalidHandle
  | ReadNotPermitted
  | WriteNotPermitted
  | InvalidPdu
  | InsufficientAuthentication
  | RequestNotSupported
  | AttributeNotFound
  | InsufficientAuthorization
  | InsufficientEncryptionKeySize
  | InsufficientEncryption
deriving DecidableEq

/-- Access mode derived from the opcode (`Access::READ` / `Access::WRITE`). -/
inductive Access
  | READ
  | WRITE
deriving DecidableEq

/-- Security level achieved on the link. -/
structure SecLevel where
  encryption : Bool
  authentication : Bool
  authorization : Bool
  key_size : Nat
deriving DecidableEq

instance : Inhabited SecLevel := ⟨⟨false, false, false, 0⟩⟩

/-- Access request: mode plus achieved security. -/
structure AccessReq where
  typ : Access
  sec : SecLevel
deriving DecidableEq

/-- Security requirement for one direction of access. -/
structure SecReq where
  encryption : Bool
  authentication : Bool
  authorization : Bool
  key_size : Nat
deriving DecidableEq

instance : Inhabited SecReq := ⟨⟨false, false, false, 0⟩⟩

/-- Attribute permissions: independent read and write security requirements. -/
structure Perms where
  read : SecReq
  write : SecReq
deriving DecidableEq

instance : Inhabited Perms := ⟨⟨default, default⟩⟩

/-- `Perms::test`: check the achieved security level against the requirement selected by
the access mode, producing the §4.5 error codes on failure. -/
def Perms.test (p : Perms) (ac : AccessReq) : Except ErrorCode Unit :=
  let req := match ac.typ with | .READ => p.read | .WRITE => p.write
  if req.authentication ∧ ¬ac.sec.authentication then .error .InsufficientAuthentication
  else if req.authorization ∧ ¬ac.sec.authorization then .error .InsufficientAuthorization
  else if req.encryption ∧ ¬ac.sec.encryption then .error .InsufficientEncryption
  else if ac.sec.key_size < req.key_size then .error .InsufficientEncryptionKeySize
  else .ok ()

/-- ATT request context handed to the schema (`Request`). -/
structure Request where
  op : AttOpcode
  ac : AccessReq
deriving DecidableEq

/-- ATT error response triple (`ErrorRsp`). -/
structure ErrorRsp where
  op : AttOpcode
  hdl : Nat
  err : ErrorCode
deriving DecidableEq

/-- Result of a schema operation (`RspResult<T>`). -/
abbrev RspResult (α : Type) := Except ErrorRsp α

/-- `Opcode::hdl_err`: build an error response for a handle. -/
def AttOpcode.hdl_err {α : Type} (op : AttOpcode) (err : ErrorCode) (hdl : Nat) :
    RspResult α :=
  .error ⟨op, hdl, err⟩

/-! ### GATT schema (src/gatt/schema.rs)

Declaration and descriptor type UUIDs, characteristic property bits and extended
property bits are the Bluetooth assigned numbers referenced by the sources
(`Declaration::*.uuid16()`, `Descriptor::*.uuid16()`, `Prop`, `ExtProp`); the enums
themselves live in the `gatt` module root, which is not among the provided sources. -/

/-- Primary service declaration type UUID. -/
def Declaration.PrimaryService : Nat := 0x2800

/-- Secondary service declaration type UUID. -/
def Declaration.SecondaryService : Nat := 0x2801

/-- Include declaration type UUID. -/
def Declaration.Include : Nat := 0x2802

/-- Characteristic declaration type UUID. -/
def Declaration.Characteristic : Nat := 0x2803

/-- Characteristic extended properties descriptor type UUID. -/
def Descriptor.CharacteristicExtendedProperties : Nat := 0x2900

/-- Characteristic user description descriptor type UUID. -/
def Descriptor.CharacteristicUserDescription : Nat := 0x2901

/-- Characteristic property bits (`Prop`; the name `Prop` is reserved in Lean). -/
def Props.BROADCAST : Nat := 0x01

/-- READ property bit. -/
def Props.READ : Nat := 0x02

/-- WRITE_CMD (write without response) property bit. -/
def Props.WRITE_CMD : Nat := 0x04

/-- WRITE property bit. -/
def Props.WRITE : Nat := 0x08

/-- NOTIFY property bit. -/
def Props.NOTIFY : Nat := 0x10

/-- INDICATE property bit. -/
def Props.INDICATE : Nat := 0x20

/-- SIGNED_WRITE_CMD property bit. -/
def Props.SIGNED_WRITE_CMD : Nat := 0x40

/-- EXT_PROPS property bit. -/
def Props.EXT_PROPS : Nat := 0x80

/-- Bitflags `contains`: all bits of `bit` are set in `p`. -/
def Props.contains (p bit : Nat) : Bool := decide (p &&& bit = bit)

/-- RELIABLE_WRITE extended property bit. -/
def ExtProp.RELIABLE_WRITE : Nat := 0x0001

/-- WRITABLE_AUX extended property bit. -/
def ExtProp.WRITABLE_AUX : Nat := 0x0002

/-- `ExtProp::from_bits_truncate`: keep only the known bits. -/
def ExtProp.from_bits_truncate (v : Nat) : Nat := v &&& 0x0003

/-- Bitflags `contains` for extended properties. -/
def ExtProp.contains (p bit : Nat) : Bool := decide (p &&& bit = bit)

/-- Attribute entry (`Attr`): handle, 16-bit SIG type (or `none` for a 128-bit type held
in the data arena), `(start, end)` value slice into the arena, permissions. -/
structure Attr where
  hdl : Nat
  typ : Option Nat
  val : Nat × Nat
  perms : Perms
deriving DecidableEq

instance : Inhabited Attr := ⟨⟨0, none, (0, 0), default⟩⟩

/-- `Attr::is_service`. -/
def Attr.is_service (a : Attr) : Bool :=
  decide (a.typ = some Declaration.PrimaryService ∨ a.typ = some Declaration.SecondaryService)

/-- `Attr::is_primary_service`. -/
def Attr.is_primary_service (a : Attr) : Bool :=
  decide (a.typ = some Declaration.PrimaryService)

/-- `Attr::is_include`. -/
def Attr.is_include (a : Attr) : Bool :=
  decide (a.typ = some Declaration.Include)

/-- `Attr::is_char`. -/
def Attr.is_char (a : Attr) : Bool :=
  decide (a.typ = some Declaration.Characteristic)

/-- `Attr::is_ext_props`. -/
def Attr.is_ext_props (a : Attr) : Bool :=
  decide (a.typ = some Descriptor.CharacteristicExtendedProperties)

/-- `CharacteristicDef::is_next_group`: attribute types ending a characteristic group. -/
def charIsNextGroup (typ : Option Nat) : Bool :=
  decide (typ = some Declaration.PrimaryService ∨ typ = some Declaration.SecondaryService ∨
    typ = some Declaration.Include ∨ typ = some Declaration.Characteristic)

/-- Read-only database schema (`Schema`): attribute metadata sorted by handle, shared
value/UUID arena, database hash. -/
structure Schema where
  attr : List Attr
  data : List Nat
  hash : Nat
deriving DecidableEq

/-- `CommonOps::value`: the value slice `data[val.0 .. val.1]`. -/
def Schema.value (s : Schema) (a : Attr) : List Nat :=
  (s.data.take a.val.2).drop a.val.1

/-- `Schema::typ`: inline 16-bit SIG type over the base, or the 128-bit UUID read
little-endian from the arena at `val.0`. -/
def Schema.typ (s : Schema) (a : Attr) : Nat :=
  match a.typ with
  | some t => Uuid16.as_uuid t
  | none => leNat ((s.data.drop a.val.1).take 16)

/-- Little-endian `u16` read (`Unpacker::u16`): returns 0 when fewer than two bytes
remain, as the unpacker turns invalid and yields zero values. -/
def u16le : List Nat → Nat
  | a :: b :: _ => a + 256 * b
  | _ => 0

/-- `value_handle`: the 16-bit handle at offset 1 of a characteristic declaration value;
`Handle::new(0)` is `None`, so a zero handle falls back to `Handle::MAX`. -/
def value_handle (decl : List Nat) : Nat :=
  let h := u16le (decl.drop 1)
  if h = 0 then 0xFFFF else h

/-- Core loop of `slice::binary_search_by` from the Rust standard library, searching
`attr[left..right]` for `hdl`.  The fuel argument (instantiated with an upper bound on
`right - left`) makes the recursion structural so the kernel can evaluate it. -/
def binSearch (attr : List Attr) (hdl : Nat) : Nat → Nat → Nat → Except Nat Nat
  | 0, left, _ => .error left
  | fuel + 1, left, right =>
    if left < right then
      let mid := left + (right - left) / 2
      match attr.get? mid with
      | none => .error left
      | some a =>
        if a.hdl < hdl then binSearch attr hdl fuel (mid + 1) right
        else if hdl < a.hdl then binSearch attr hdl fuel left mid
        else .ok mid
    else .error left

/-- `search` inside `CommonOps::get`: binary-search a whole attribute slice. -/
def searchAttr (attr : List Attr) (hdl : Nat) : Except Nat Nat :=
  binSearch attr hdl (attr.length + 1) 0 attr.length

/-- Index form of `CommonOps::get`: `Ok` carries the index of the attribute with the
requested handle (the source returns the reference and recovers the index by pointer
arithmetic in `CommonOps::index`), `Err` carries the insertion index.  The expected index
`hdl - 1` is probed first; on a handle gap the prefix before it is binary-searched. -/
def getIdx (attr : List Attr) (hdl : Nat) : Except Nat Nat :=
  let i := hdl - 1
  match attr.get? i with
  | some a => if a.hdl = hdl then .ok i else searchAttr (attr.take i) hdl
  | none => searchAttr attr hdl

/-- `CommonOps::get`: the attribute with the requested handle or the insertion index. -/
def Schema.get (s : Schema) (hdl : Nat) : Except Nat Attr :=
  match getIdx s.attr hdl with
  | .ok i => .ok ((s.attr.get? i).getD default)
  | .error i => .error i

/-- `Schema::subset`: attributes within an inclusive handle range as
`(offset, slice)`, or `none` when the range misses the attribute array entirely. -/
def Schema.subset (s : Schema) (hdls : HandleRange) : Option (Nat × List Attr) :=
  match (match getIdx s.attr hdls.start with
         | .error i => if i < s.attr.length then some i else none
         | .ok i => some i) with
  | none => none
  | some i =>
    match (match getIdx s.attr hdls.stop with
           | .error j => if 0 < j then some j else none
           | .ok j => some (j + 1)) with
    | none => none
    | some j => some (i, (s.attr.take j).drop i)

/-- Last index in `l` whose element satisfies `p` (`Iterator::rposition`). -/
def rposition {α : Type} (l : List α) (p : α → Bool) : Option Nat :=
  match l.reverse.findIdx? p with
  | some k => some (l.length - 1 - k)
  | none => none

/-- Information about a single characteristic (`CharInfo`). -/
structure CharInfo where
  props : Nat
  ext_props : Option Nat
  val : Attr
  desc : List Attr
deriving DecidableEq

/-- `Schema::characteristic_for_attr` for the attribute at index `i` (the source takes
the reference and recovers `i` by pointer arithmetic): walk back to the nearest
characteristic declaration, forward to the next group boundary, and locate the value
attribute. -/
def Schema.characteristic_for_attr (s : Schema) (i : Nat) : Option CharInfo :=
  match rposition (s.attr.take (i + 1)) Attr.is_char with
  | none => none
  | some decl =>
    let stop := match (s.attr.drop (decl + 1)).findIdx? (fun a => charIsNextGroup a.typ) with
                | some j => decl + 1 + j
                | none => s.attr.length
    if stop ≤ i then none
    else
      let v := s.value ((s.attr.get? decl).getD default)
      let vhdl := value_handle v
      match ((s.attr.take stop).drop (decl + 1)).findIdx? (fun a => decide (a.hdl = vhdl)) with
      | none => none
      | some p =>
        let val := decl + 1 + p
        let desc := (s.attr.take stop).drop (val + 1)
        let props := (v.get? 0).getD 0
        let ext_props :=
          if Props.contains props Props.EXT_PROPS then
            some (match desc.find? Attr.is_ext_props with
                  | some a => ExtProp.from_bits_truncate (u16le (s.value a))
                  | none => 0)
          else none
        some { props := props, ext_props := ext_props,
               val := (s.attr.get? val).getD default, desc := desc }

/-- `Schema::access_check` for the attribute at index `i`: permission test, then
property-bit verification for characteristic value attributes, then the
user-description write rule for descriptors. -/
def Schema.access_check (s : Schema) (req : Request) (i : Nat) : RspResult Nat :=
  let at_ := (s.attr.get? i).getD default
  let op := req.op
  let hdl := at_.hdl
  match at_.perms.test req.ac with
  | .error e => op.hdl_err e hdl
  | .ok () =>
    match s.characteristic_for_attr i with
    | none => .ok hdl
    | some ch =>
      if hdl ≠ ch.val.hdl then
        if req.ac.typ = Access.WRITE ∧ at_.typ = some Descriptor.CharacteristicUserDescription ∧
            ¬(match ch.ext_props with
              | some p => ExtProp.contains p ExtProp.WRITABLE_AUX
              | none => false) = true then
          op.hdl_err .WriteNotPermitted hdl
        else .ok hdl
      else
        match (match op with
               | .ReadReq | .ReadByTypeReq | .ReadBlobReq | .ReadMultipleReq
               | .ReadMultipleVariableReq => some Props.READ
               | .WriteCmd => some Props.WRITE_CMD
               | .WriteReq | .PrepareWriteReq => some Props.WRITE
               | .SignedWriteCmd => some Props.SIGNED_WRITE_CMD
               | _ => none) with
        | none => op.hdl_err .RequestNotSupported hdl
        | some bit =>
          if ¬ Props.contains ch.props bit then
            op.hdl_err (if req.ac.typ = Access.READ then .ReadNotPermitted
                        else .WriteNotPermitted) hdl
          else .ok hdl

/-- Collect the values of the longest `Ok` prefix (`Iterator::map_while(Result::ok)`). -/
def mapWhileOk {ε α : Type} : List (Except ε α) → List α
  | [] => []
  | .ok a :: rest => a :: mapWhileOk rest
  | .error _ :: _ => []

/-- The access-check results produced inside `Schema::try_range_access`: subset of the
range, filtered to the attributes whose type equals `uuid`, each checked. -/
def Schema.rangeChecks (s : Schema) (req : Request) (hdls : HandleRange) (uuid : Nat) :
    List (RspResult Nat) :=
  match s.subset hdls with
  | none => []
  | some (off, attr) =>
    (List.enumFrom off attr).filterMap fun p =>
      if s.typ p.2 = uuid then some (s.access_check req p.1) else none

/-- `Schema::try_range_access`: peek at the first check (empty means
`AttributeNotFound` on the range start, a leading error is returned as is), then collect
the prefix of successful handles. -/
def Schema.try_range_access (s : Schema) (req : Request) (hdls : HandleRange)
    (uuid : Nat) : RspResult (List Nat) :=
  match s.rangeChecks req hdls uuid with
  | [] => req.op.hdl_err .AttributeNotFound hdls.start
  | r :: _ =>
    match r with
    | .error e => .error e
    | .ok _ => .ok (mapWhileOk (s.rangeChecks req hdls uuid))

/-! ### Specification-side definitions

These restate operations in the words of the specification (and of the claims); the
refinement theorems below compare them with the transcribed code. -/

/-- The claim's description of the checks run by `try_range_access`: every attribute of
the schema whose handle lies in the range and whose type equals the UUID, in handle
order, each run through the access check. -/
def Schema.range_checks_spec (s : Schema) (req : Request) (hdls : HandleRange)
    (uuid : Nat) : List (RspResult Nat) :=
  ((List.enumFrom 0 s.attr).filter fun p =>
      decide (hdls.start ≤ p.2.hdl) && decide (p.2.hdl ≤ hdls.stop) &&
        decide (s.typ p.2 = uuid)).map
    fun p => s.access_check req p.1

/-- The claim's description of `try_range_access`: empty collection means
`AttributeNotFound` on the range start; a failing first check returns that error;
otherwise the prefix of handles whose check succeeded, stopping at the first failure. -/
def Schema.try_range_access_spec (s : Schema) (req : Request) (hdls : HandleRange)
    (uuid : Nat) : RspResult (List Nat) :=
  match s.range_checks_spec req hdls uuid with
  | [] => req.op.hdl_err .AttributeNotFound hdls.start
  | .error e :: _ => .error e
  | .ok _ :: _ => .ok (mapWhileOk (s.range_checks_spec req hdls uuid))

/-- The §4.5 fixed opcode → property-bit table, as the spec states it. -/
def accessBit : AttOpcode → Option Nat
  | .ReadReq | .ReadByTypeReq | .ReadBlobReq | .ReadMultipleReq
  | .ReadMultipleVariableReq => some Props.READ
  | .WriteCmd => some Props.WRITE_CMD
  | .WriteReq | .PrepareWriteReq => some Props.WRITE
  | .SignedWriteCmd => some Props.SIGNED_WRITE_CMD
  | _ => none

/-- Well-formed attribute array: strictly increasing handles, all of them valid
(non-zero); this is invariant 1 of §3 plus the `NonZeroU16` handle type. -/
def wfAttrs (attr : List Attr) : Prop :=
  attr.Pairwise (fun a b => a.hdl < b.hdl) ∧ ∀ a ∈ attr, 1 ≤ a.hdl

/-! ### Concrete instances for scenario S5 (claim C2) and for witnesses -/

/-- Permissions requiring nothing. -/
def permsNone : Perms := default

/-- Permissions requiring authentication for reads. -/
def permsAuthRead : Perms :=
  { read := { encryption := false, authentication := true, authorization := false,
              key_size := 0 },
    write := default }

/-- Value bytes of a characteristic declaration: `properties || value_handle || uuid16`,
all little-endian. -/
def charDeclBytes (props vhdl uuid : Nat) : List Nat :=
  [props, vhdl % 256, vhdl / 256 % 256, uuid % 256, uuid / 256 % 256]

/-- Data arena of the S5 schema: one service declaration value followed by five
characteristic declaration values (declaration k has value handle `2k+1`). -/
def s5data : List Nat :=
  [0x00, 0x18] ++ charDeclBytes Props.READ 3 0x2A00 ++ charDeclBytes Props.READ 5 0x2A00 ++
    charDeclBytes Props.READ 7 0x2A00 ++ charDeclBytes Props.READ 9 0x2A00 ++
    charDeclBytes Props.READ 11 0x2A00

/-- S5 schema: a service at handle 1 with five readable characteristics of UUID `0x2A00`
at handles 2/3, 4/5, 6/7, 8/9, 10/11; the values of characteristics 2 and 4 (handles 5
and 9) require authentication to read. -/
def s5schema : Schema :=
  { attr :=
      [⟨1, some Declaration.PrimaryService, (0, 2), permsNone⟩,
       ⟨2, some Declaration.Characteristic, (2, 7), permsNone⟩,
       ⟨3, some 0x2A00, (0, 0), permsNone⟩,
       ⟨4, some Declaration.Characteristic, (7, 12), permsNone⟩,
       ⟨5, some 0x2A00, (0, 0), permsAuthRead⟩,
       ⟨6, some Declaration.Characteristic, (12, 17), permsNone⟩,
       ⟨7, some 0x2A00, (0, 0), permsNone⟩,
       ⟨8, some Declaration.Characteristic, (17, 22), permsNone⟩,
       ⟨9, some 0x2A00, (0, 0), permsAuthRead⟩,
       ⟨10, some Declaration.Characteristic, (22, 27), permsNone⟩,
       ⟨11, some 0x2A00, (0, 0), permsNone⟩],
    data := s5data,
    hash := 0 }

/-- S5 schema variant in which the first characteristic (value handle 3) also requires
authentication to read. -/
def s5schemaB : Schema :=
  { s5schema with
    attr := s5schema.attr.map fun a => if a.hdl = 3 then { a with perms := permsAuthRead } else a }

/-- The S5 request: a read-by-type request with no authentication achieved. -/
def s5req : Request :=
  { op := .ReadByTypeReq, ac := { typ := .READ, sec := default } }

/-- The S5 handle range `1..0xFFFF`. -/
def s5range : HandleRange := ⟨1, 0xFFFF⟩

/-- The S5 UUID `0x2A00` (Device Name) as a full 128-bit value. -/
def s5uuid : Nat := Uuid16.as_uuid 0x2A00

/-! ## Theorems -/

/-- C10: the canonical base UUID itself is a constructible, non-zero UUID value on which
`as_u16`, `as_u32` and `as_u128` all return `none`: the three projections are mutually
exclusive but not exhaustive. -/
theorem C10_base_uuid_no_projection :
    Uuid.as_u16 BASE = none ∧ Uuid.as_u32 BASE = none ∧ Uuid.as_u128 BASE = none ∧
      BASE ≠ 0 := by decide

/-- C2 counterexample: in the S5 schema (five characteristics of UUID 0x2A00,
characteristics 2 and 4 requiring authentication) with an unauthenticated request,
`try_range_access` over `1..0xFFFF` returns only the first characteristic's value handle
3 — not the handles 3, 7, 11 of characteristics 1, 3 and 5 as the claim states —
because the collected prefix stops at the first failed check. -/
theorem C2_counterexample :
    Schema.try_range_access s5schema s5req s5range s5uuid = .ok [3] ∧
      Schema.try_range_access s5schema s5req s5range s5uuid ≠ .ok [3, 7, 11] := by decide

/-- C2 amended: in the S5 scenario `try_range_access` returns exactly the value handle of
characteristic 1 (the prefix of handles before the first failing check), and when the
first characteristic also requires authentication it returns an
`InsufficientAuthentication` error response on that characteristic's value handle 3. -/
theorem C2_amended_result :
    Schema.try_range_access s5schema s5req s5range s5uuid = .ok [3] ∧
      Schema.try_range_access s5schemaB s5req s5range s5uuid =
        .error ⟨.ReadByTypeReq, 3, .InsufficientAuthentication⟩ := by decide

set_option maxRecDepth 100000 in
/-- C5 counterexample: on the S2 test-vector inputs the claim's formula — the full
128-bit AES-CMAC reduced mod 1_000_000 — yields 362106, while `g2` as implemented
(truncating to the low 32 bits first) yields 938554, so g2 is not the AES-CMAC reduced
mod 1_000_000. -/
theorem C5_counterexample :
    g2_claim 0xd5cb8454d177733effffb2ec712baeab
        0x20b003d2f297be2c5e2c83a7e9f9a5b9eff49111acf4fddbcc0301480e359de6
        0x55188b3d32f6bb9a900afcfbeed4e72a59cb9ac2f19d7cfb6b4fdd49f47fc5fd
        0xa6e8e7cc25a75f6e216583f7ff3dc4cf = 362106 ∧
      nonce_g2 0xd5cb8454d177733effffb2ec712baeab
        0x20b003d2f297be2c5e2c83a7e9f9a5b9eff49111acf4fddbcc0301480e359de6
        0x55188b3d32f6bb9a900afcfbeed4e72a59cb9ac2f19d7cfb6b4fdd49f47fc5fd
        0xa6e8e7cc25a75f6e216583f7ff3dc4cf = 938554 ∧
      (938554 : Nat) ≠ 362106 := by
  refine ⟨by decide, by decide, by decide⟩

set_option maxRecDepth 100000 in
/-- C5 amended: `g2` is the AES-CMAC keyed by N1 over `U || V || N2` truncated to its low
32 bits and then reduced mod 1_000_000 (hence always a six-digit value below 1_000_000),
and on the S2 test-vector inputs it yields `0x2f9ed5ba mod 1_000_000`. -/
theorem C5_g2_truncated :
    (∀ x u v y : Nat,
      nonce_g2 x u v y =
        aesCmac x (beBytes 32 u ++ beBytes 32 v ++ beBytes 16 y) % 2 ^ 32 % 1000000 ∧
      nonce_g2 x u v y < 1000000) ∧
    nonce_g2 0xd5cb8454d177733effffb2ec712baeab
        0x20b003d2f297be2c5e2c83a7e9f9a5b9eff49111acf4fddbcc0301480e359de6
        0x55188b3d32f6bb9a900afcfbeed4e72a59cb9ac2f19d7cfb6b4fdd49f47fc5fd
        0xa6e8e7cc25a75f6e216583f7ff3dc4cf = 0x2f9ed5ba % 1000000 := by
  refine ⟨fun x u v y => ⟨rfl, Nat.mod_lt _ (by norm_num)⟩, by decide⟩

/-- C3: the router's command quota starts at 1; with no conflicting filter registered, a
command registration at quota 0 fails with `CommandQuotaExceeded`, a `Command(Reset)`
registration sets the quota to 0, any other command registration decrements it by 1, and
a non-command registration leaves it unchanged; receiving a `CommandComplete` or
`CommandStatus` event sets the quota to the value carried in the event. -/
theorem C3_cmd_quota :
    Waiters.init.cmd_quota = 1 ∧
    (∀ ws : Waiters, ∀ op : HciOpcode, (∀ w ∈ ws.queue, w.filter ≠ .Command op) →
      ws.cmd_quota = 0 → register ws (.Command op) = .error .CommandQuotaExceeded) ∧
    (∀ ws : Waiters, (∀ w ∈ ws.queue, w.filter ≠ .Command .Reset) → ws.cmd_quota ≠ 0 →
      ∃ ws2, register ws (.Command .Reset) = .ok ws2 ∧ ws2.cmd_quota = 0) ∧
    (∀ ws : Waiters, ∀ op : HciOpcode, op ≠ .Reset →
      (∀ w ∈ ws.queue, w.filter ≠ .Command op) → ws.cmd_quota ≠ 0 →
      ∃ ws2, register ws (.Command op) = .ok ws2 ∧ ws2.cmd_quota = ws.cmd_quota - 1) ∧
    (∀ ws : Waiters, ∀ evt : Event, evt.typ.is_cmd = true →
      (recv_update ws evt).cmd_quota = evt.cmd_quota) := by
  refine ⟨rfl, ?_, ?_, ?_, ?_⟩
  · intro ws op hnc hq
    have hany : (ws.queue.any fun w => EventFilter.conflicts_with (.Command op) w.filter)
        = false := by
      simp only [List.any_eq_false, EventFilter.conflicts_with]
      intro w hw
      simpa using (hnc w hw).symm
    simp [register, hany, hq]
  · intro ws hnc hq
    have hany : (ws.queue.any fun w =>
        EventFilter.conflicts_with (.Command HciOpcode.Reset) w.filter) = false := by
      simp only [List.any_eq_false, EventFilter.conflicts_with]
      intro w hw
      simpa using (hnc w hw).symm
    refine ⟨⟨ws.queue ++ [⟨ws.next_id, .Command .Reset, false⟩], ws.next_id + 1, 0⟩, ?_, rfl⟩
    simp [register, hany, hq]
  · intro ws op hop hnc hq
    have hany : (ws.queue.any fun w => EventFilter.conflicts_with (.Command op) w.filter)
        = false := by
      simp only [List.any_eq_false, EventFilter.conflicts_with]
      intro w hw
      simpa using (hnc w hw).symm
    refine ⟨⟨ws.queue ++ [⟨ws.next_id, .Command op, false⟩], ws.next_id + 1,
      ws.cmd_quota - 1⟩, ?_, rfl⟩
    simp [register, hany, hq, hop]
  · intro ws evt hcmd
    simp [recv_update, hcmd]

/-- C3 witness: concrete instances of every hypothesis-guarded clause — quota-exhausted
registration is rejected, a Reset registration zeroes the quota, another command
registration decrements it, and a command event restores the quota from its payload. -/
theorem C3_cmd_quota_witness :
    register ⟨[], 0, 0⟩ (.Command .SetEventMask) = .error .CommandQuotaExceeded ∧
      (∃ ws2, register ⟨[], 0, 1⟩ (.Command .Reset) = .ok ws2 ∧ ws2.cmd_quota = 0) ∧
      (∃ ws2, register ⟨[], 0, 3⟩ (.Command .SetEventMask) = .ok ws2 ∧
        ws2.cmd_quota = 3 - 1) ∧
      (recv_update ⟨[], 0, 0⟩ ⟨.Hci .CommandComplete, 7, .Reset, .Central⟩).cmd_quota = 7 :=
  ⟨C3_cmd_quota.2.1 ⟨[], 0, 0⟩ .SetEventMask (by simp) rfl,
   C3_cmd_quota.2.2.1 ⟨[], 0, 1⟩ (by simp) (by simp),
   C3_cmd_quota.2.2.2.1 ⟨[], 0, 3⟩ .SetEventMask (by simp) (by simp) (by simp),
   C3_cmd_quota.2.2.2.2 ⟨[], 0, 0⟩ ⟨.Hci .CommandComplete, 7, .Reset, .Central⟩ rfl⟩

/-- C4: complete characterization of the router's match relation: disconnection and
number-of-completed-packets events match only `ChanManager`; command events match only
`Command(op)` with the event's opcode; LE connection-complete events match `ChanManager`
and `SecDb` always and `AdvManager` exactly when the role is `Peripheral`; LE long-term
key requests match only `SecDb`; LE advertising-set-terminated events match only
`AdvManager`; every other event matches no filter. -/
theorem C4_match_relation (e : Event) (f : EventFilter) :
    eventMatches e f = true ↔
      (((e.typ = .Hci .DisconnectionComplete ∨ e.typ = .Hci .NumberOfCompletedPackets) ∧
         f = .ChanManager) ∨
       ((e.typ = .Hci .CommandComplete ∨ e.typ = .Hci .CommandStatus) ∧
         f = .Command e.opcode) ∨
       ((e.typ = .Le .ConnectionComplete ∨ e.typ = .Le .EnhancedConnectionComplete) ∧
         (f = .ChanManager ∨ f = .SecDb ∨ (f = .AdvManager ∧ e.role = .Peripheral))) ∨
       (e.typ = .Le .LongTermKeyRequest ∧ f = .SecDb) ∨
       (e.typ = .Le .AdvertisingSetTerminated ∧ f = .AdvManager)) := by
  obtain ⟨t, q, op, role⟩ := e
  delta eventMatches
  cases t with
  | Hci c => cases c <;> cases f <;> simp
  | Le c => cases c <;> cases f <;> simp

/-- Helper: `Uuid16::as_uuid` in arithmetic form. -/
theorem as_uuid_eq (w : Nat) : Uuid16.as_uuid w = 2 ^ 96 * w + BASE := by
  have hB : BASE < 2 ^ 96 := by decide
  have hS : SHIFT = 96 := rfl
  rw [Uuid16.as_uuid, hS]
  apply Nat.eq_of_testBit_eq
  intro i
  rw [Nat.testBit_lor, Nat.testBit_shiftLeft, Nat.testBit_mul_pow_two_add _ hB]
  by_cases h : i < 96
  · have h1 : ¬ (i ≥ 96) := by omega
    simp [h1, h]
  · have h1 : i ≥ 96 := by omega
    have h2 : BASE.testBit i = false :=
      Nat.testBit_lt_two_pow
        (lt_of_lt_of_le hB (Nat.pow_le_pow_right (by norm_num) (by omega)))
    simp [h1, h2, h]

/-- Helper: the 16-bit mask keeps the low 96 bits and the top 16 bits. -/
theorem mask16_split (v : Nat) (hv : v < 2 ^ 128) :
    v &&& MASK_16 = 2 ^ 112 * (v >>> 112) + v % 2 ^ 96 := by
  have hmask : MASK_16 = ((2 ^ 16 - 1) <<< 112) ||| (2 ^ 96 - 1) := by decide
  have hlo : v % 2 ^ 96 < 2 ^ 112 :=
    lt_of_lt_of_le (Nat.mod_lt _ (by norm_num)) (by norm_num)
  apply Nat.eq_of_testBit_eq
  intro i
  simp only [Nat.testBit_land, hmask, Nat.testBit_lor, Nat.testBit_shiftLeft,
    Nat.testBit_two_pow_sub_one, Nat.testBit_mul_pow_two_add _ hlo,
    Nat.testBit_mod_two_pow, Nat.testBit_shiftRight]
  by_cases h96 : i < 96
  · have h1 : ¬ (i ≥ 112) := by omega
    have h2 : i < 112 := by omega
    simp [h96, h1, h2]
  · by_cases h112 : i < 112
    · have h1 : ¬ (i ≥ 112) := by omega
      simp [h96, h112, h1]
    · have h1 : i ≥ 112 := by omega
      have he : 112 + (i - 112) = i := by omega
      by_cases h128 : i < 128
      · have h2 : i - 112 < 16 := by omega
        simp [h96, h112, h1, h2, he]
      · have hv0 : v.testBit i = false :=
          Nat.testBit_lt_two_pow
            (lt_of_lt_of_le hv (Nat.pow_le_pow_right (by norm_num) (by omega)))
        simp [h96, h112, h1, he, hv0]

/-- Helper: the 32-bit mask keeps exactly the low 96 bits. -/
theorem mask32_mod (v : Nat) : v &&& MASK_32 = v % 2 ^ 96 := by
  have hmask : MASK_32 = 2 ^ 96 - 1 := by decide
  rw [hmask, Nat.and_pow_two_sub_one_eq_mod]

/-- Helper: 16-bit truncation is reduction mod `2^16`. -/
theorem and16_mod (x : Nat) : x &&& 0xFFFF = x % 2 ^ 16 := by
  have h : (0xFFFF : Nat) = 2 ^ 16 - 1 := by norm_num
  rw [h, Nat.and_pow_two_sub_one_eq_mod]

/-- Helper: 32-bit truncation is reduction mod `2^32`. -/
theorem and32_mod (x : Nat) : x &&& 0xFFFFFFFF = x % 2 ^ 32 := by
  have h : (0xFFFFFFFF : Nat) = 2 ^ 32 - 1 := by norm_num
  rw [h, Nat.and_pow_two_sub_one_eq_mod]

/-- Helper: the `as_u16` mask condition holds exactly when the low 96 bits are the base
and the top 16 bits are clear. -/
theorem mask16_eq_base_iff (v : Nat) (hv : v < 2 ^ 128) :
    v &&& MASK_16 = BASE ↔ v % 2 ^ 96 = BASE ∧ v >>> 112 = 0 := by
  rw [mask16_split v hv]
  constructor
  · intro h
    have hhi : v >>> 112 = 0 := by
      by_contra hk
      have h1 : 2 ^ 112 * 1 ≤ 2 ^ 112 * (v >>> 112) :=
        Nat.mul_le_mul_left _ (Nat.pos_of_ne_zero hk)
      have h2 : 2 ^ 112 * (v >>> 112) ≤ BASE :=
        le_trans (Nat.le_add_right _ _) (le_of_eq h)
      have h3 : ¬ (2 ^ 112 * 1 ≤ BASE) := by decide
      exact h3 (le_trans h1 h2)
    rw [hhi] at h
    simp at h
    exact ⟨h, hhi⟩
  · rintro ⟨h1, h2⟩
    rw [h1, h2]
    simp

/-- Helper: when the top 16 bits are clear, the shifted value is below `2^16`. -/
theorem shift96_lt_of_shift112_eq_zero (v : Nat) (h : v >>> 112 = 0) :
    v / 2 ^ 96 < 2 ^ 16 := by
  rw [Nat.shiftRight_eq_div_pow] at h
  have he : v / 2 ^ 96 / 2 ^ 16 = v / 2 ^ 112 := by
    rw [Nat.div_div_eq_div_mul]
    norm_num
  have h0 : v / 2 ^ 96 / 2 ^ 16 = 0 := by rw [he, h]
  exact (Nat.div_eq_zero_iff (by norm_num)).mp h0

/-- Helper: characterization of the 16-bit projection: `some w` exactly when the value is
the non-zero 16-bit quantity `w` placed over the canonical base. -/
theorem as_u16_some_iff (v w : Nat) (hv : v < 2 ^ 128) :
    Uuid.as_u16 v = some w ↔ 0 < w ∧ w < 2 ^ 16 ∧ v = Uuid16.as_uuid w := by
  have hS : SHIFT = 96 := rfl
  have hB96 : BASE < 2 ^ 96 := by decide
  rw [Uuid.as_u16]
  simp only [hS, and16_mod, Nat.shiftRight_eq_div_pow]
  constructor
  · intro h
    by_cases hc : v &&& MASK_16 = BASE ∧ 0 < v / 2 ^ 96 % 2 ^ 16
    · obtain ⟨hm, hpos⟩ := hc
      rw [if_pos ⟨hm, hpos⟩] at h
      obtain ⟨hlow, hhi⟩ := (mask16_eq_base_iff v hv).mp hm
      have hd : v / 2 ^ 96 < 2 ^ 16 := shift96_lt_of_shift112_eq_zero v hhi
      have hw : v / 2 ^ 96 % 2 ^ 16 = v / 2 ^ 96 := Nat.mod_eq_of_lt hd
      rw [hw] at h hpos
      obtain rfl : v / 2 ^ 96 = w := Option.some.inj h
      refine ⟨hpos, hd, ?_⟩
      rw [as_uuid_eq, ← hlow]
      exact (Nat.div_add_mod v (2 ^ 96)).symm
    · rw [if_neg hc] at h
      exact absurd h (by simp)
  · rintro ⟨hw0, hw16, rfl⟩
    rw [as_uuid_eq]
    have hd : (2 ^ 96 * w + BASE) / 2 ^ 96 = w := by
      rw [Nat.mul_add_div (by norm_num)]
      rw [Nat.div_eq_of_lt hB96]
      omega
    have hm : (2 ^ 96 * w + BASE) % 2 ^ 96 = BASE := by
      rw [Nat.mul_add_mod]
      exact Nat.mod_eq_of_lt hB96
    have hcond : (2 ^ 96 * w + BASE) &&& MASK_16 = BASE := by
      rw [mask16_eq_base_iff _ (by rw [← as_uuid_eq]; exact hv)]
      refine ⟨hm, ?_⟩
      rw [Nat.shiftRight_eq_div_pow]
      have he : (2 ^ 96 * w + BASE) / 2 ^ 112 = (2 ^ 96 * w + BASE) / 2 ^ 96 / 2 ^ 16 := by
        rw [Nat.div_div_eq_div_mul]
        norm_num
      rw [he, hd]
      exact Nat.div_eq_of_lt hw16
    rw [hd, if_pos ⟨hcond, by rw [Nat.mod_eq_of_lt hw16]; exact hw0⟩,
      Nat.mod_eq_of_lt hw16]

/-- C8: over all `u128` values, the three UUID projections are mutually exclusive;
`as_u16` returns `some` exactly at a non-zero 16-bit quantity placed over the canonical
Bluetooth base; and the 16-bit projection is lossless: projecting `Uuid16::sig(w)` as a
128-bit UUID back through `as_u16` yields `some w` for every non-zero `u16` `w`. -/
theorem C8_uuid_projections :
    (∀ v : Nat, v < 2 ^ 128 →
      ((Uuid.as_u16 v).isSome = true → Uuid.as_u32 v = none ∧ Uuid.as_u128 v = none) ∧
      ((Uuid.as_u32 v).isSome = true → Uuid.as_u16 v = none ∧ Uuid.as_u128 v = none) ∧
      ((Uuid.as_u128 v).isSome = true → Uuid.as_u16 v = none ∧ Uuid.as_u32 v = none) ∧
      (∀ w, Uuid.as_u16 v = some w ↔ 0 < w ∧ w < 2 ^ 16 ∧ v = Uuid16.as_uuid w)) ∧
    (∀ w, 0 < w → w < 2 ^ 16 → Uuid.as_u16 (Uuid16.as_uuid w) = some w) := by
  have hS : SHIFT = 96 := rfl
  have hB96 : BASE < 2 ^ 96 := by decide
  refine ⟨fun v hv => ?_, fun w hw0 hw16 => ?_⟩
  · refine ⟨?_, ?_, ?_, fun w => as_u16_some_iff v w hv⟩
    · intro hsome
      obtain ⟨w, hw⟩ := Option.isSome_iff_exists.mp hsome
      obtain ⟨hw0, hw16, rfl⟩ := (as_u16_some_iff _ w hv).mp hw
      have hd : Uuid16.as_uuid w / 2 ^ 96 = w := by
        rw [as_uuid_eq, Nat.mul_add_div (by norm_num)]
        rw [Nat.div_eq_of_lt hB96]
        omega
      have hm : Uuid16.as_uuid w % 2 ^ 96 = BASE := by
        rw [as_uuid_eq, Nat.mul_add_mod]
        exact Nat.mod_eq_of_lt hB96
      constructor
      · rw [Uuid.as_u32]
        simp only [hS, and32_mod, Nat.shiftRight_eq_div_pow, hd]
        rw [if_neg]
        rintro ⟨-, hgt⟩
        rw [Nat.mod_eq_of_lt (lt_trans hw16 (by norm_num))] at hgt
        omega
      · rw [Uuid.as_u128, mask32_mod, hm]
        simp
    · intro hsome
      rw [Uuid.as_u32] at hsome
      simp only [hS, and32_mod, mask32_mod, Nat.shiftRight_eq_div_pow] at hsome
      by_cases hc : v % 2 ^ 96 = BASE ∧ 0xFFFF < v / 2 ^ 96 % 2 ^ 32
      · obtain ⟨hm, hgt⟩ := hc
        constructor
        · rw [Uuid.as_u16, if_neg]
          rintro ⟨hmask, -⟩
          obtain ⟨-, hhi⟩ := (mask16_eq_base_iff v hv).mp hmask
          have hd : v / 2 ^ 96 < 2 ^ 16 := shift96_lt_of_shift112_eq_zero v hhi
          rw [Nat.mod_eq_of_lt (lt_trans hd (by norm_num))] at hgt
          omega
        · rw [Uuid.as_u128, mask32_mod, hm]
          simp
      · rw [if_neg hc] at hsome
        exact absurd hsome (by simp)
    · intro hsome
      rw [Uuid.as_u128] at hsome
      by_cases hne : v &&& MASK_32 ≠ BASE
      · rw [mask32_mod] at hne
        constructor
        · rw [Uuid.as_u16, if_neg]
          rintro ⟨hmask, -⟩
          exact hne ((mask16_eq_base_iff v hv).mp hmask).1
        · rw [Uuid.as_u32, if_neg]
          rintro ⟨hmask, -⟩
          exact hne (by rw [← mask32_mod]; exact hmask)
      · rw [if_neg hne] at hsome
        exact absurd hsome (by simp)
  · have hv : Uuid16.as_uuid w < 2 ^ 128 := by
      rw [as_uuid_eq]
      have : 2 ^ 96 * w ≤ 2 ^ 96 * (2 ^ 16 - 1) := Nat.mul_le_mul_left _ (by omega)
      have hB : BASE < 2 ^ 96 := hB96
      have : 2 ^ 96 * w + BASE < 2 ^ 112 := by
        calc 2 ^ 96 * w + BASE < 2 ^ 96 * (2 ^ 16 - 1) + 2 ^ 96 := by omega
        _ = 2 ^ 112 := by norm_num
      exact lt_trans this (by norm_num)
    exact (as_u16_some_iff _ w hv).mpr ⟨hw0, hw16, rfl⟩

/-- C8 witness: the assigned UUID `0x2A00` placed over the base round-trips and its other
two projections are `none`. -/
theorem C8_uuid_projections_witness :
    Uuid16.as_uuid 0x2A00 < 2 ^ 128 ∧
      Uuid.as_u32 (Uuid16.as_uuid 0x2A00) = none ∧
      Uuid.as_u128 (Uuid16.as_uuid 0x2A00) = none ∧
      Uuid.as_u16 (Uuid16.as_uuid 0x2A00) = some 0x2A00 :=
  ⟨by decide, ((C8_uuid_projections.1 _ (by decide)).1 (by decide)).1,
   ((C8_uuid_projections.1 _ (by decide)).1 (by decide)).2,
   C8_uuid_projections.2 0x2A00 (by decide) (by decide)⟩

/-- Helper: in a strictly sorted attribute list, earlier entries have smaller handles. -/
theorem sorted_get_lt {attr : List Attr}
    (hs : attr.Pairwise fun a b => a.hdl < b.hdl) {k j : Nat} {a b : Attr}
    (hkj : k < j) (ha : attr.get? k = some a) (hb : attr.get? j = some b) :
    a.hdl < b.hdl := by
  rw [List.get?_eq_some] at ha hb
  obtain ⟨hk, rfl⟩ := ha
  obtain ⟨hj, rfl⟩ := hb
  exact List.pairwise_iff_get.mp hs ⟨k, hk⟩ ⟨j, hj⟩ hkj

/-- Helper: in a well-formed attribute list the handle at index `k` is at least `k+1`. -/
theorem idx_lt_hdl {attr : List Attr} (hwf : wfAttrs attr) :
    ∀ k a, attr.get? k = some a → k < a.hdl := by
  intro k
  induction k with
  | zero =>
    intro a ha
    have hmem : a ∈ attr := List.get?_mem ha
    exact lt_of_lt_of_le Nat.zero_lt_one (hwf.2 a hmem)
  | succ k ih =>
    intro a ha
    have hk1 : k + 1 < attr.length := (List.get?_eq_some.mp ha).1
    obtain ⟨b, hb⟩ : ∃ b, attr.get? k = some b := by
      cases hg : attr.get? k with
      | some b => exact ⟨b, rfl⟩
      | none =>
        rw [List.get?_eq_none] at hg
        omega
    have h1 := ih b hb
    have h2 := sorted_get_lt hwf.1 (Nat.lt_succ_self k) hb ha
    omega

/-- Helper: a count determined by an index split: entries before `n` satisfy `P`, entries
from `n` on do not, so `countP P` is `n`. -/
theorem countP_split (l : List Attr) (P : Attr → Bool) (n : Nat) (hn : n ≤ l.length)
    (hlt : ∀ k a, k < n → l.get? k = some a → P a = true)
    (hge : ∀ k a, n ≤ k → l.get? k = some a → P a = false) :
    l.countP P = n := by
  have hsplit : l = l.take n ++ l.drop n := (List.take_append_drop n l).symm
  rw [hsplit, List.countP_append]
  have h1 : (l.take n).countP P = (l.take n).length := by
    rw [List.countP_eq_length_filter, List.filter_eq_self.mpr]
    intro a ha
    obtain ⟨k, hk⟩ := List.get_of_mem ha
    have hkn : k.val < n := by
      have := k.isLt
      simp only [List.length_take] at this
      omega
    refine hlt k.val a hkn ?_
    rw [← List.get?_take hkn, List.get?_eq_some]
    exact ⟨k.isLt, hk⟩
  have h2 : (l.drop n).countP P = 0 := by
    rw [List.countP_eq_length_filter, List.length_eq_zero, List.filter_eq_nil_iff]
    intro a ha
    obtain ⟨k, hk⟩ := List.get_of_mem ha
    have : l.get? (n + k.val) = some a := by
      rw [← List.get?_drop, List.get?_eq_some]
      exact ⟨k.isLt, hk⟩
    simp [hge (n + k.val) a (Nat.le_add_right n k.val) this]
  rw [h1, h2, List.length_take]
  omega

/-- Helper: for a handle-downward-closed predicate over a sorted list, membership of the
index below the count characterizes the predicate. -/
theorem countP_iff_of_sorted :
    ∀ (l : List Attr), (l.Pairwise fun a b => a.hdl < b.hdl) →
      ∀ (P : Attr → Bool), (∀ a b : Attr, a.hdl < b.hdl → P b = true → P a = true) →
      ∀ k a, l.get? k = some a → (P a = true ↔ k < l.countP P) := by
  intro l
  induction l with
  | nil => intro _ _ _ k a ha; simp at ha
  | cons x xs ih =>
    intro hs P hdc k a ha
    have hx : ∀ b ∈ xs, x.hdl < b.hdl := fun b hb => List.rel_of_pairwise_cons hs hb
    have hxs : xs.Pairwise fun a b => a.hdl < b.hdl := hs.of_cons
    rw [List.countP_cons]
    cases k with
    | zero =>
      have hxa : x = a := by simpa using ha
      subst hxa
      constructor
      · intro hPa
        simp [hPa]
      · intro hpos
        by_cases hPx : P x = true
        · exact hPx
        · rw [if_neg hPx, Nat.add_zero] at hpos
          obtain ⟨b, hb, hPb⟩ := List.countP_pos.mp hpos
          exact hdc x b (hx b hb) hPb
    | succ k =>
      simp only [List.get?_cons_succ] at ha
      have hmem : a ∈ xs := List.get?_mem ha
      by_cases hPx : P x = true
      · rw [ih hxs P hdc k a ha, if_pos hPx]
        omega
      · have hnone : xs.countP P = 0 := by
          rw [List.countP_eq_length_filter, List.length_eq_zero, List.filter_eq_nil_iff]
          intro b hb hPb
          exact hPx (hdc x b (hx b hb) hPb)
        have hPa : P a = false := by
          by_contra hc
          rw [Bool.not_eq_false] at hc
          exact hPx (hdc x a (hx a hmem) hc)
        rw [if_neg hPx, Nat.add_zero, hnone, hPa]
        simp

/-- Helper: the index of the entry holding a handle is the number of smaller handles. -/
theorem found_eq_countP {attr : List Attr}
    (hs : attr.Pairwise fun a b => a.hdl < b.hdl) {i : Nat} {a : Attr} {hdl : Nat}
    (ha : attr.get? i = some a) (hhdl : a.hdl = hdl) :
    i = attr.countP fun b => decide (b.hdl < hdl) := by
  have hi : i < attr.length := (List.get?_eq_some.mp ha).1
  refine (countP_split attr (fun b => decide (b.hdl < hdl)) i (le_of_lt hi) ?_ ?_).symm
  · intro k b hk hb
    have h1 := sorted_get_lt hs hk hb ha
    simp only [decide_eq_true_eq]
    omega
  · intro k b hk hb
    rcases Nat.eq_or_lt_of_le hk with h | hk2
    · rw [← h] at hb
      rw [hb] at ha
      obtain rfl := Option.some.inj ha
      simp [hhdl]
    · have h1 := sorted_get_lt hs hk2 ha hb
      simp only [decide_eq_false_iff_not]
      omega

/-- Helper: an exhausted bracket `[left, left)` certifies the insertion index and the
absence of the handle. -/
theorem exhausted_spec (attr : List Attr) (hdl left : Nat) (hlen : left ≤ attr.length)
    (hlo : ∀ k a, k < left → attr.get? k = some a → a.hdl < hdl)
    (hhi : ∀ k a, left ≤ k → attr.get? k = some a → hdl < a.hdl) :
    left = attr.countP (fun a => decide (a.hdl < hdl)) ∧ ∀ a ∈ attr, a.hdl ≠ hdl := by
  constructor
  · refine (countP_split attr (fun a => decide (a.hdl < hdl)) left hlen ?_ ?_).symm
    · intro k a hk ha
      simpa using hlo k a hk ha
    · intro k a hk ha
      have h1 := hhi k a hk ha
      simp only [decide_eq_false_iff_not]
      omega
  · intro a hmem
    obtain ⟨k, hk⟩ := List.get_of_mem hmem
    have hget : attr.get? k.val = some a := by
      rw [List.get?_eq_some]
      exact ⟨k.isLt, hk⟩
    rcases lt_or_ge k.val left with h | h
    · have h1 := hlo k.val a h hget
      omega
    · have h1 := hhi k.val a h hget
      omega

/-- Unfolding equation for `binSearch` on an empty bracket. -/
theorem binSearch_eq_exhausted (attr : List Attr) (hdl fuel left right : Nat)
    (h : ¬ left < right) :
    binSearch attr hdl fuel left right = .error left := by
  cases fuel with
  | zero => rfl
  | succ fuel =>
    simp only [binSearch]
    rw [if_neg h]

/-- Unfolding equation for one `binSearch` probe. -/
theorem binSearch_eq_step (attr : List Attr) (hdl fuel left right : Nat) (a : Attr)
    (h : left < right) (ha : attr.get? (left + (right - left) / 2) = some a) :
    binSearch attr hdl (fuel + 1) left right =
      (if a.hdl < hdl then binSearch attr hdl fuel (left + (right - left) / 2 + 1) right
       else if hdl < a.hdl then binSearch attr hdl fuel left (left + (right - left) / 2)
       else .ok (left + (right - left) / 2)) := by
  simp only [binSearch]
  rw [if_pos h, ha]

/-- Correctness of the binary-search core: with consistent bracketing invariants and
sufficient fuel, `Ok` returns an index holding the handle and `Err` returns the insertion
index together with absence of the handle. -/
theorem binSearch_correct (attr : List Attr) (hdl : Nat)
    (hs : attr.Pairwise fun a b => a.hdl < b.hdl) :
    ∀ fuel left right, right ≤ attr.length → left ≤ right → right - left ≤ fuel →
    (∀ k a, k < left → attr.get? k = some a → a.hdl < hdl) →
    (∀ k a, right ≤ k → attr.get? k = some a → hdl < a.hdl) →
    (∀ i, binSearch attr hdl fuel left right = .ok i →
      ∃ a, attr.get? i = some a ∧ a.hdl = hdl) ∧
    (∀ i, binSearch attr hdl fuel left right = .error i →
      i = attr.countP (fun a => decide (a.hdl < hdl)) ∧ ∀ a ∈ attr, a.hdl ≠ hdl) := by
  intro fuel
  induction fuel with
  | zero =>
    intro left right hlen hlr hfuel hlo hhi
    have heq : left = right := by omega
    subst heq
    rw [binSearch_eq_exhausted attr hdl 0 left left (by omega)]
    constructor
    · intro i hi
      exact absurd hi (by simp)
    · intro i hi
      obtain rfl : left = i := Except.error.inj hi
      exact exhausted_spec attr hdl left (le_trans hlr hlen) hlo hhi
  | succ fuel ih =>
    intro left right hlen hlr hfuel hlo hhi
    by_cases hlt : left < right
    · have hmidlt : left + (right - left) / 2 < right := by omega
      have hmid : left + (right - left) / 2 < attr.length := by omega
      obtain ⟨a, ha⟩ : ∃ a, attr.get? (left + (right - left) / 2) = some a := by
        cases hg : attr.get? (left + (right - left) / 2) with
        | some a => exact ⟨a, rfl⟩
        | none =>
          rw [List.get?_eq_none] at hg
          omega
      rw [binSearch_eq_step attr hdl fuel left right a hlt ha]
      by_cases h1 : a.hdl < hdl
      · rw [if_pos h1]
        refine ih (left + (right - left) / 2 + 1) right hlen (by omega) (by omega) ?_ hhi
        intro k b hk hb
        rcases lt_or_ge k left with h | h
        · exact hlo k b h hb
        · rcases Nat.lt_succ_iff_lt_or_eq.mp hk with h2 | h2
          · exact lt_trans (sorted_get_lt hs h2 hb ha) h1
          · rw [h2, ha] at hb
            obtain rfl := Option.some.inj hb.symm
            exact h1
      · rw [if_neg h1]
        by_cases h2 : hdl < a.hdl
        · rw [if_pos h2]
          refine ih left (left + (right - left) / 2) (by omega) (by omega) (by omega) hlo ?_
          intro k b hk hb
          rcases Nat.eq_or_lt_of_le hk with h3 | h3
          · rw [← h3] at hb
            rw [hb] at ha
            obtain rfl := Option.some.inj ha
            exact h2
          · exact lt_trans h2 (sorted_get_lt hs h3 ha hb)
        · rw [if_neg h2]
          constructor
          · intro i hi
            obtain rfl := Except.ok.inj hi
            exact ⟨a, ha, by omega⟩
          · intro i hi
            exact absurd hi (by simp)
    · rw [binSearch_eq_exhausted attr hdl (fuel + 1) left right hlt]
      constructor
      · intro i hi
        exact absurd hi (by simp)
      · intro i hi
        obtain rfl : left = i := Except.error.inj hi
        exact exhausted_spec attr hdl left (by omega) hlo
          (fun k a hk ha => hhi k a (by omega) ha)

/-- Unfolding equation for `getIdx` when the probed index holds an attribute. -/
theorem getIdx_eq_probe (attr : List Attr) (hdl : Nat) (a : Attr)
    (ha : attr.get? (hdl - 1) = some a) :
    getIdx attr hdl =
      if a.hdl = hdl then .ok (hdl - 1) else searchAttr (attr.take (hdl - 1)) hdl := by
  simp only [getIdx]
  rw [ha]

/-- Unfolding equation for `getIdx` when the probed index is out of bounds. -/
theorem getIdx_eq_miss (attr : List Attr) (hdl : Nat)
    (ha : attr.get? (hdl - 1) = none) :
    getIdx attr hdl = searchAttr attr hdl := by
  simp only [getIdx]
  rw [ha]

/-- Characterization of `getIdx` on well-formed attribute lists: `Ok` carries the index
of the entry with the requested handle (equal to the number of smaller handles), `Err`
carries the insertion index and certifies absence. -/
theorem getIdx_spec (attr : List Attr) (hdl : Nat) (hwf : wfAttrs attr)
    (hpos : 1 ≤ hdl) :
    (∀ i, getIdx attr hdl = .ok i →
      i = attr.countP (fun a => decide (a.hdl < hdl)) ∧
        ∃ a, attr.get? i = some a ∧ a.hdl = hdl) ∧
    (∀ i, getIdx attr hdl = .error i →
      i = attr.countP (fun a => decide (a.hdl < hdl)) ∧ ∀ a ∈ attr, a.hdl ≠ hdl) := by
  obtain ⟨hs, hone⟩ := hwf
  cases hattr : attr.get? (hdl - 1) with
  | some a =>
    rw [getIdx_eq_probe attr hdl a hattr]
    by_cases heq : a.hdl = hdl
    · rw [if_pos heq]
      constructor
      · intro i hi
        obtain rfl : hdl - 1 = i := Except.ok.inj hi
        exact ⟨found_eq_countP hs hattr heq, a, hattr, heq⟩
      · intro i hi
        exact absurd hi (by simp)
    · rw [if_neg heq]
      -- The probed entry has a larger handle, so only the prefix can hold `hdl`.
      have hgap : hdl < a.hdl := by
        have := idx_lt_hdl ⟨hs, hone⟩ (hdl - 1) a hattr
        omega
      have hlen : hdl - 1 < attr.length := (List.get?_eq_some.mp hattr).1
      have hpre : (attr.take (hdl - 1)).Pairwise fun a b => a.hdl < b.hdl :=
        hs.sublist (List.take_sublist _ _)
      have hafter : ∀ k b, hdl - 1 ≤ k → attr.get? k = some b → hdl < b.hdl := by
        intro k b hk hb
        rcases Nat.eq_or_lt_of_le hk with h | h
        · rw [← h] at hb
          rw [hb] at hattr
          obtain rfl := Option.some.inj hattr
          exact hgap
        · exact lt_trans hgap (sorted_get_lt hs h hattr hb)
      have hcnt : ∀ P : Attr → Bool, (∀ k b, hdl - 1 ≤ k → attr.get? k = some b →
          P b = false) → attr.countP P = (attr.take (hdl - 1)).countP P := by
        intro P hP
        conv_lhs => rw [← List.take_append_drop (hdl - 1) attr]
        rw [List.countP_append]
        have hz : (attr.drop (hdl - 1)).countP P = 0 := by
          rw [List.countP_eq_length_filter, List.length_eq_zero, List.filter_eq_nil_iff]
          intro b hb
          obtain ⟨k, hk⟩ := List.get_of_mem hb
          have hget : attr.get? (hdl - 1 + k.val) = some b := by
            rw [← List.get?_drop, List.get?_eq_some]
            exact ⟨k.isLt, hk⟩
          simp [hP (hdl - 1 + k.val) b (Nat.le_add_right _ _) hget]
        omega
      have hcnt2 : attr.countP (fun b => decide (b.hdl < hdl))
          = (attr.take (hdl - 1)).countP (fun b => decide (b.hdl < hdl)) := by
        refine hcnt _ ?_
        intro k b hk hb
        have h1 := hafter k b hk hb
        simp only [decide_eq_false_iff_not]
        omega
      have hbs := binSearch_correct (attr.take (hdl - 1)) hdl hpre
        ((attr.take (hdl - 1)).length + 1) 0 (attr.take (hdl - 1)).length (le_refl _)
        (Nat.zero_le _) (by omega) (by intro k b hk _; omega)
        (by intro k b hk hb
            have h1 := (List.get?_eq_some.mp hb).1
            omega)
      rw [searchAttr]
      constructor
      · intro i hi
        obtain ⟨b, hb, hbhdl⟩ := hbs.1 i hi
        have hilen : i < (attr.take (hdl - 1)).length := (List.get?_eq_some.mp hb).1
        have hb2 : attr.get? i = some b := by
          rw [← List.get?_take (show i < hdl - 1 by
            have h1 := hilen
            simp only [List.length_take] at h1
            omega)]
          exact hb
        exact ⟨found_eq_countP hs hb2 hbhdl, b, hb2, hbhdl⟩
      · intro i hi
        obtain ⟨hco, habs⟩ := hbs.2 i hi
        refine ⟨by rw [hco, hcnt2], ?_⟩
        intro b hmem
        obtain ⟨k, hk⟩ := List.get_of_mem hmem
        have hget : attr.get? k.val = some b := by
          rw [List.get?_eq_some]
          exact ⟨k.isLt, hk⟩
        rcases lt_or_ge k.val (hdl - 1) with h | h
        · refine habs b ?_
          rw [← List.get?_take h] at hget
          exact List.get?_mem hget
        · have h1 := hafter k.val b h hget
          omega
  | none =>
    -- The expected index is out of bounds: binary-search the whole array.
    rw [getIdx_eq_miss attr hdl hattr]
    have hbs := binSearch_correct attr hdl hs (attr.length + 1) 0 attr.length
      (le_refl _) (Nat.zero_le _) (by omega) (by intro k b hk _; omega)
      (by intro k b hk hb
          have h1 := (List.get?_eq_some.mp hb).1
          omega)
    rw [searchAttr]
    constructor
    · intro i hi
      obtain ⟨b, hb, hbhdl⟩ := hbs.1 i hi
      exact ⟨found_eq_countP hs hb hbhdl, b, hb, hbhdl⟩
    · intro i hi
      exact hbs.2 i hi

/-- C7: on a schema whose attributes are stored in strictly increasing 1-based handle
order, `get(h)` returns the attribute with handle `h` when one exists (in particular any
`Ok` result carries the requested handle) and otherwise returns the insertion index for
`h` — the number of attributes with smaller handles. -/
theorem C7_get_correct (s : Schema) (hdl : Nat) (hwf : wfAttrs s.attr) (hpos : 1 ≤ hdl) :
    (∀ a : Attr, s.get hdl = .ok a → a.hdl = hdl) ∧
    ((∃ a ∈ s.attr, a.hdl = hdl) → ∃ a, s.get hdl = .ok a ∧ a.hdl = hdl) ∧
    ((∀ a ∈ s.attr, a.hdl ≠ hdl) →
      s.get hdl = .error (s.attr.countP fun a => decide (a.hdl < hdl))) := by
  have hspec := getIdx_spec s.attr hdl hwf hpos
  cases hres : getIdx s.attr hdl with
  | ok i =>
    obtain ⟨hcnt, a, ha, hahdl⟩ := hspec.1 i hres
    have hget : s.get hdl = .ok a := by
      have h1 : s.get hdl = .ok ((s.attr.get? i).getD default) := by
        rw [Schema.get, hres]
      rw [h1, ha]
      rfl
    refine ⟨?_, ?_, ?_⟩
    · intro b hb
      rw [hget] at hb
      obtain rfl := Except.ok.inj hb
      exact hahdl
    · intro _
      exact ⟨a, hget, hahdl⟩
    · intro habs
      exact absurd hahdl (habs a (List.get?_mem ha))
  | error i =>
    obtain ⟨hcnt, habs⟩ := hspec.2 i hres
    have hget : s.get hdl = .error i := by
      rw [Schema.get, hres]
    refine ⟨?_, ?_, ?_⟩
    · intro b hb
      rw [hget] at hb
      exact absurd hb (by simp)
    · rintro ⟨a, hmem, rfl⟩
      exact absurd rfl (habs a hmem)
    · intro _
      rw [hget, hcnt]

/-- Witness for C7 at the S5 schema: handle 12 is absent from the attribute array and
`get` reports the insertion index 11. -/
theorem C7_get_correct_witness : s5schema.get 12 = .error 11 :=
  ((C7_get_correct s5schema 12 ⟨by decide, by decide⟩ (by decide)).2.2
    (by decide)).trans (by decide)

/-- C6: once the permission test passes, `access_check` dispatches on the attribute's
role. An attribute outside any characteristic group is allowed. For the characteristic
value attribute the property bit selected by the opcode per the fixed table
(`accessBit`) is verified: no selected bit is `RequestNotSupported`, a missing bit is
`ReadNotPermitted` or `WriteNotPermitted` chosen by the access mode, a present bit is
allowed. A write to the Characteristic User Description descriptor whose
characteristic lacks `WRITABLE_AUX` is `WriteNotPermitted`; every other declaration or
descriptor access is allowed. -/
theorem C6_access_check (s : Schema) (req : Request) (i : Nat) (a : Attr)
    (hat : (s.attr.get? i).getD default = a)
    (hperm : a.perms.test req.ac = .ok ()) :
    (s.characteristic_for_attr i = none → s.access_check req i = .ok a.hdl) ∧
    ∀ ch : CharInfo, s.characteristic_for_attr i = some ch →
      (a.hdl = ch.val.hdl →
        (accessBit req.op = none →
          s.access_check req i = req.op.hdl_err .RequestNotSupported a.hdl) ∧
        ∀ bit : Nat, accessBit req.op = some bit →
          (Props.contains ch.props bit = true → s.access_check req i = .ok a.hdl) ∧
          (Props.contains ch.props bit = false →
            s.access_check req i = req.op.hdl_err
              (if req.ac.typ = Access.READ then ErrorCode.ReadNotPermitted
               else ErrorCode.WriteNotPermitted) a.hdl)) ∧
      (a.hdl ≠ ch.val.hdl →
        (req.ac.typ = Access.WRITE →
          a.typ = some Descriptor.CharacteristicUserDescription →
          (match ch.ext_props with
           | some p => ExtProp.contains p ExtProp.WRITABLE_AUX
           | none => false) = false →
          s.access_check req i = req.op.hdl_err .WriteNotPermitted a.hdl) ∧
        ((req.ac.typ = Access.READ ∨
          a.typ ≠ some Descriptor.CharacteristicUserDescription ∨
          (match ch.ext_props with
           | some p => ExtProp.contains p ExtProp.WRITABLE_AUX
           | none => false) = true) →
          s.access_check req i = .ok a.hdl)) := by
  constructor
  · intro hch
    simp only [Schema.access_check, hat, hperm, hch]
  · intro ch hch
    refine ⟨fun hv => ⟨fun hnone => ?_, fun bit hbit => ⟨fun htrue => ?_, fun hfalse => ?_⟩⟩,
      fun hne => ⟨fun hw hud hax => ?_, fun hok => ?_⟩⟩
    · simp only [Schema.access_check, hat, hperm, hch]
      rw [if_neg (not_not_intro hv)]
      cases hop : req.op <;> rw [hop] at hnone <;>
        first | rfl | exact absurd hnone (by decide)
    · simp only [Schema.access_check, hat, hperm, hch]
      rw [if_neg (not_not_intro hv)]
      cases hop : req.op <;> rw [hop] at hbit <;>
        first
        | exact Option.noConfusion hbit
        | (obtain rfl := Option.some.inj hbit
           simp [htrue])
    · simp only [Schema.access_check, hat, hperm, hch]
      rw [if_neg (not_not_intro hv)]
      cases hop : req.op <;> rw [hop] at hbit <;>
        first
        | exact Option.noConfusion hbit
        | (obtain rfl := Option.some.inj hbit
           simp [hfalse])
    · simp only [Schema.access_check, hat, hperm, hch]
      rw [if_pos hne, if_pos ⟨hw, hud, by simp [hax]⟩]
    · simp only [Schema.access_check, hat, hperm, hch]
      have hcond : ¬(req.ac.typ = Access.WRITE ∧
          a.typ = some Descriptor.CharacteristicUserDescription ∧
          ¬(match ch.ext_props with
            | some p => ExtProp.contains p ExtProp.WRITABLE_AUX
            | none => false) = true) := by
        rintro ⟨h1, h2, h3⟩
        rcases hok with h | h | h
        · rw [h1] at h
          exact absurd h (by decide)
        · exact h h2
        · exact h3 h
      rw [if_pos hne, if_neg hcond]

/-- Witness for C6 at the S5 schema: the value attribute at index 2 (handle 3) under a
read request with the READ property bit present is allowed. -/
theorem C6_access_check_witness : s5schema.access_check s5req 2 = .ok 3 :=
  ((((C6_access_check s5schema s5req 2 ⟨3, some 0x2A00, (0, 0), permsNone⟩
      (by decide) (by decide)).2
      ⟨2, none, ⟨3, some 0x2A00, (0, 0), permsNone⟩, []⟩
      (by decide)).1 (by decide)).2 Props.READ (by decide)).1 (by decide)

/-- Helper: the second component of an `enumFrom` element is a member of the list. -/
theorem snd_mem_of_mem_enumFrom {α : Type} {p : Nat × α} {j : Nat} {xs : List α}
    (h : p ∈ List.enumFrom j xs) : p.2 ∈ xs := by
  obtain ⟨i, x⟩ := p
  obtain ⟨h1, h2, h3⟩ := List.mem_enumFrom h
  simp only [h3]
  exact List.getElem_mem _

/-- Helper: the `filter_map` inside `try_range_access` is a filter followed by a map. -/
theorem rangeChecks_filterMap (s : Schema) (req : Request) (uuid : Nat) :
    ∀ l : List (Nat × Attr),
      (l.filterMap fun p => if s.typ p.2 = uuid then some (s.access_check req p.1) else none)
        = ((l.filter fun p => decide (s.typ p.2 = uuid)).map
            fun p => s.access_check req p.1) := by
  intro l
  induction l with
  | nil => rfl
  | cons x xs ih =>
    by_cases hQ : s.typ x.2 = uuid
    · simp [List.filterMap_cons, List.filter_cons, hQ, ih]
    · simp [List.filterMap_cons, List.filter_cons, hQ, ih]

/-- Helper: every element of the prefix of length `countP` of a sorted list satisfies a
handle-downward-closed predicate. -/
theorem mem_take_countP (l : List Attr) (hs : l.Pairwise fun a b => a.hdl < b.hdl)
    (P : Attr → Bool) (hdc : ∀ a b : Attr, a.hdl < b.hdl → P b = true → P a = true) :
    ∀ a ∈ l.take (l.countP P), P a = true := by
  intro a hmem
  obtain ⟨k, hk⟩ := List.get_of_mem hmem
  have hkc : k.val < l.countP P := by
    have h1 := k.isLt
    simp only [List.length_take] at h1
    omega
  have hget : l.get? k.val = some a := by
    rw [← List.get?_take hkc, List.get?_eq_some]
    exact ⟨k.isLt, hk⟩
  exact (countP_iff_of_sorted l hs P hdc k.val a hget).mpr hkc

/-- Helper: every element past the first `countP` positions of a sorted list falsifies a
handle-downward-closed predicate. -/
theorem mem_drop_countP (l : List Attr) (hs : l.Pairwise fun a b => a.hdl < b.hdl)
    (P : Attr → Bool) (hdc : ∀ a b : Attr, a.hdl < b.hdl → P b = true → P a = true) :
    ∀ a ∈ l.drop (l.countP P), P a = false := by
  intro a hmem
  obtain ⟨k, hk⟩ := List.get_of_mem hmem
  have hget : l.get? (l.countP P + k.val) = some a := by
    rw [← List.get?_drop, List.get?_eq_some]
    exact ⟨k.isLt, hk⟩
  by_contra hc
  rw [Bool.not_eq_false] at hc
  have := (countP_iff_of_sorted l hs P hdc (l.countP P + k.val) a hget).mp hc
  omega

/-- Helper: truncating a sorted list at the count of a weaker predicate preserves the
count of a stronger downward-closed predicate. -/
theorem countP_take_of_le (l : List Attr) (hs : l.Pairwise fun a b => a.hdl < b.hdl)
    (P Q : Attr → Bool) (hdc : ∀ a b : Attr, a.hdl < b.hdl → P b = true → P a = true)
    (hPQ : ∀ a ∈ l, P a = true → Q a = true) :
    (l.take (l.countP Q)).countP P = l.countP P := by
  have hle : l.countP P ≤ l.countP Q := List.countP_mono_left hPQ
  have hQlen : l.countP Q ≤ l.length := List.countP_le_length Q
  refine countP_split (l.take (l.countP Q)) P (l.countP P) ?_ ?_ ?_
  · rw [List.length_take]
    omega
  · intro k a hk ha
    rw [List.get?_take (by omega)] at ha
    exact (countP_iff_of_sorted l hs P hdc k a ha).mpr hk
  · intro k a hk ha
    have hkQ : k < l.countP Q := by
      have h1 := (List.get?_eq_some.mp ha).1
      simp only [List.length_take] at h1
      omega
    rw [List.get?_take hkQ] at ha
    by_contra hc
    rw [Bool.not_eq_false] at hc
    have := (countP_iff_of_sorted l hs P hdc k a ha).mp hc
    omega

/-- Unfolding `Schema::subset` when both endpoints are found. -/
theorem subset_eq_ok_ok (s : Schema) (hdls : HandleRange) (i j : Nat)
    (h1 : getIdx s.attr hdls.start = .ok i) (h2 : getIdx s.attr hdls.stop = .ok j) :
    s.subset hdls = some (i, (s.attr.take (j + 1)).drop i) := by
  rw [Schema.subset, h1, h2]

/-- Unfolding `Schema::subset`: start found, stop missing with positive insertion
index. -/
theorem subset_eq_ok_errpos (s : Schema) (hdls : HandleRange) (i j : Nat)
    (h1 : getIdx s.attr hdls.start = .ok i) (h2 : getIdx s.attr hdls.stop = .error j)
    (hj : 0 < j) :
    s.subset hdls = some (i, (s.attr.take j).drop i) := by
  rw [Schema.subset, h1, h2]
  simp [hj]

/-- Unfolding `Schema::subset`: start found, stop missing with zero insertion index. -/
theorem subset_eq_ok_errzero (s : Schema) (hdls : HandleRange) (i j : Nat)
    (h1 : getIdx s.attr hdls.start = .ok i) (h2 : getIdx s.attr hdls.stop = .error j)
    (hj : ¬ 0 < j) :
    s.subset hdls = none := by
  rw [Schema.subset, h1, h2]
  simp [hj]

/-- Unfolding `Schema::subset`: start missing with in-bounds insertion index, stop
found. -/
theorem subset_eq_err_ok (s : Schema) (hdls : HandleRange) (i j : Nat)
    (h1 : getIdx s.attr hdls.start = .error i) (hi : i < s.attr.length)
    (h2 : getIdx s.attr hdls.stop = .ok j) :
    s.subset hdls = some (i, (s.attr.take (j + 1)).drop i) := by
  rw [Schema.subset, h1, h2]
  simp [hi]

/-- Unfolding `Schema::subset`: both endpoints missing, both insertion indices
usable. -/
theorem subset_eq_err_errpos (s : Schema) (hdls : HandleRange) (i j : Nat)
    (h1 : getIdx s.attr hdls.start = .error i) (hi : i < s.attr.length)
    (h2 : getIdx s.attr hdls.stop = .error j) (hj : 0 < j) :
    s.subset hdls = some (i, (s.attr.take j).drop i) := by
  rw [Schema.subset, h1, h2]
  simp [hi, hj]

/-- Unfolding `Schema::subset`: start missing in bounds, stop missing with zero
insertion index. -/
theorem subset_eq_err_errzero (s : Schema) (hdls : HandleRange) (i j : Nat)
    (h1 : getIdx s.attr hdls.start = .error i) (hi : i < s.attr.length)
    (h2 : getIdx s.attr hdls.stop = .error j) (hj : ¬ 0 < j) :
    s.subset hdls = none := by
  rw [Schema.subset, h1, h2]
  simp [hi, hj]

/-- Unfolding `Schema::subset`: start missing past the end of the array. -/
theorem subset_eq_miss (s : Schema) (hdls : HandleRange) (i : Nat)
    (h1 : getIdx s.attr hdls.start = .error i) (hi : ¬ i < s.attr.length) :
    s.subset hdls = none := by
  rw [Schema.subset, h1]
  simp [hi]

/-- `Schema::subset` on a well-formed array, overlap case: offset is the count of
handles below the start, the slice spans up to the count of handles not above the
stop. -/
theorem subset_char_some (s : Schema) (hdls : HandleRange) (hwf : wfAttrs s.attr)
    (hpos : 1 ≤ hdls.start) (hss : hdls.start ≤ hdls.stop)
    (hin : (s.attr.countP fun a => decide (a.hdl < hdls.start)) < s.attr.length)
    (hj : 0 < s.attr.countP fun a => decide (a.hdl ≤ hdls.stop)) :
    s.subset hdls = some ((s.attr.countP fun a => decide (a.hdl < hdls.start)),
      (s.attr.take (s.attr.countP fun a => decide (a.hdl ≤ hdls.stop))).drop
        (s.attr.countP fun a => decide (a.hdl < hdls.start))) := by
  have hg1 := getIdx_spec s.attr hdls.start hwf hpos
  have hg2 := getIdx_spec s.attr hdls.stop hwf (le_trans hpos hss)
  have hstop : (∃ j, getIdx s.attr hdls.stop = .ok j ∧
        j + 1 = s.attr.countP fun a => decide (a.hdl ≤ hdls.stop)) ∨
      (∃ j, getIdx s.attr hdls.stop = .error j ∧
        j = s.attr.countP fun a => decide (a.hdl ≤ hdls.stop)) := by
    cases hres : getIdx s.attr hdls.stop with
    | ok j =>
      obtain ⟨hc, b, hb, hbh⟩ := hg2.1 j hres
      refine .inl ⟨j, rfl, ?_⟩
      refine (countP_split s.attr _ (j + 1) ?_ ?_ ?_).symm
      · have := (List.get?_eq_some.mp hb).1
        omega
      · intro k c hk hc2
        rcases Nat.lt_succ_iff_lt_or_eq.mp hk with h | h
        · have := sorted_get_lt hwf.1 h hc2 hb
          simp only [decide_eq_true_eq]
          omega
        · rw [h, hb] at hc2
          obtain rfl := Option.some.inj hc2
          simp only [decide_eq_true_eq]
          omega
      · intro k c hk hc2
        have := sorted_get_lt hwf.1 (show j < k by omega) hb hc2
        simp only [decide_eq_false_iff_not]
        omega
    | error j =>
      obtain ⟨hc, habs⟩ := hg2.2 j hres
      refine .inr ⟨j, rfl, ?_⟩
      rw [hc]
      refine List.countP_congr ?_
      intro a hmem
      have hne := habs a hmem
      simp only [decide_eq_true_eq]
      omega
  cases hres1 : getIdx s.attr hdls.start with
  | ok i =>
    obtain ⟨hc, a, ha, hah⟩ := hg1.1 i hres1
    rcases hstop with ⟨j, hres2, hj1⟩ | ⟨j, hres2, hj1⟩
    · rw [subset_eq_ok_ok s hdls i j hres1 hres2, hc, hj1]
    · rw [subset_eq_ok_errpos s hdls i j hres1 hres2 (by omega), hc, hj1]
  | error i =>
    obtain ⟨hc, -⟩ := hg1.2 i hres1
    have hilt : i < s.attr.length := by omega
    rcases hstop with ⟨j, hres2, hj1⟩ | ⟨j, hres2, hj1⟩
    · rw [subset_eq_err_ok s hdls i j hres1 hilt hres2, hc, hj1]
    · rw [subset_eq_err_errpos s hdls i j hres1 hilt hres2 (by omega), hc, hj1]

/-- `Schema::subset` on a well-formed array: `none` when every handle is below the
start of the range. -/
theorem subset_char_none_hi (s : Schema) (hdls : HandleRange) (hwf : wfAttrs s.attr)
    (hpos : 1 ≤ hdls.start)
    (hin : ¬ (s.attr.countP fun a => decide (a.hdl < hdls.start)) < s.attr.length) :
    s.subset hdls = none := by
  have hg1 := getIdx_spec s.attr hdls.start hwf hpos
  cases hres1 : getIdx s.attr hdls.start with
  | ok i =>
    obtain ⟨hc, a, ha, hah⟩ := hg1.1 i hres1
    have hlt := (List.get?_eq_some.mp ha).1
    exact absurd (show (s.attr.countP fun a => decide (a.hdl < hdls.start)) <
      s.attr.length by omega) hin
  | error i =>
    obtain ⟨hc, -⟩ := hg1.2 i hres1
    exact subset_eq_miss s hdls i hres1 (by omega)

/-- `Schema::subset` on a well-formed array: `none` when every handle is above the
stop of the range. -/
theorem subset_char_none_lo (s : Schema) (hdls : HandleRange) (hwf : wfAttrs s.attr)
    (hpos : 1 ≤ hdls.start) (hss : hdls.start ≤ hdls.stop)
    (hj : ¬ 0 < s.attr.countP fun a => decide (a.hdl ≤ hdls.stop)) :
    s.subset hdls = none := by
  have hg2 := getIdx_spec s.attr hdls.stop hwf (le_trans hpos hss)
  have hstop : ∃ j, getIdx s.attr hdls.stop = .error j ∧ ¬ 0 < j := by
    cases hres : getIdx s.attr hdls.stop with
    | ok j =>
      obtain ⟨hc, b, hb, hbh⟩ := hg2.1 j hres
      have hpos2 : 0 < s.attr.countP fun a => decide (a.hdl ≤ hdls.stop) :=
        List.countP_pos_iff.mpr ⟨b, List.get?_mem hb, by simp [hbh]⟩
      exact absurd hpos2 hj
    | error j =>
      obtain ⟨hc, -⟩ := hg2.2 j hres
      have hle : (s.attr.countP fun a => decide (a.hdl < hdls.stop)) ≤
          s.attr.countP fun a => decide (a.hdl ≤ hdls.stop) :=
        List.countP_mono_left (by
          intro a _ h
          simp only [decide_eq_true_eq] at h ⊢
          omega)
      exact ⟨j, rfl, by omega⟩
  obtain ⟨j, hres2, hjz⟩ := hstop
  have hg1 := getIdx_spec s.attr hdls.start hwf hpos
  cases hres1 : getIdx s.attr hdls.start with
  | ok i => exact subset_eq_ok_errzero s hdls i j hres1 hres2 hjz
  | error i =>
    by_cases hi : i < s.attr.length
    · exact subset_eq_err_errzero s hdls i j hres1 hi hres2 hjz
    · exact subset_eq_miss s hdls i hres1 hi

/-- Helper: the spec-side collection is empty when every handle is below the range. -/
theorem spec_nil_of_all_lt (s : Schema) (req : Request) (hdls : HandleRange)
    (uuid : Nat) (h : ∀ a ∈ s.attr, a.hdl < hdls.start) :
    s.range_checks_spec req hdls uuid = [] := by
  have hnil : (List.enumFrom 0 s.attr).filter (fun p =>
      decide (hdls.start ≤ p.2.hdl) && decide (p.2.hdl ≤ hdls.stop) &&
        decide (s.typ p.2 = uuid)) = [] := by
    rw [List.filter_eq_nil_iff]
    intro p hp
    have hmem := snd_mem_of_mem_enumFrom hp
    have hlt := h p.2 hmem
    simp only [Bool.and_eq_true, decide_eq_true_eq]
    rintro ⟨⟨h1, -⟩, -⟩
    omega
  rw [Schema.range_checks_spec, hnil, List.map_nil]

/-- Helper: the spec-side collection is empty when every handle is above the range. -/
theorem spec_nil_of_all_gt (s : Schema) (req : Request) (hdls : HandleRange)
    (uuid : Nat) (h : ∀ a ∈ s.attr, hdls.stop < a.hdl) :
    s.range_checks_spec req hdls uuid = [] := by
  have hnil : (List.enumFrom 0 s.attr).filter (fun p =>
      decide (hdls.start ≤ p.2.hdl) && decide (p.2.hdl ≤ hdls.stop) &&
        decide (s.typ p.2 = uuid)) = [] := by
    rw [List.filter_eq_nil_iff]
    intro p hp
    have hmem := snd_mem_of_mem_enumFrom hp
    have hgt := h p.2 hmem
    simp only [Bool.and_eq_true, decide_eq_true_eq]
    rintro ⟨⟨-, h2⟩, -⟩
    omega
  rw [Schema.range_checks_spec, hnil, List.map_nil]

/-- The checks produced from the subset slice coincide with the spec-side collection
over the whole array: the segments outside the two counts filter to nothing, and the
segment between them passes the range test wholesale. -/
theorem rangeChecks_main (s : Schema) (req : Request) (hdls : HandleRange) (uuid : Nat)
    (hwf : wfAttrs s.attr) (hss : hdls.start ≤ hdls.stop) :
    (List.enumFrom (s.attr.countP fun a => decide (a.hdl < hdls.start))
        ((s.attr.take (s.attr.countP fun a => decide (a.hdl ≤ hdls.stop))).drop
          (s.attr.countP fun a => decide (a.hdl < hdls.start)))).filterMap
      (fun p => if s.typ p.2 = uuid then some (s.access_check req p.1) else none)
      = s.range_checks_spec req hdls uuid := by
  have hs := hwf.1
  have hdc1 : ∀ a b : Attr, a.hdl < b.hdl → decide (b.hdl < hdls.start) = true →
      decide (a.hdl < hdls.start) = true := by
    intro a b h hb
    simp only [decide_eq_true_eq] at hb ⊢
    omega
  have hdc2 : ∀ a b : Attr, a.hdl < b.hdl → decide (b.hdl ≤ hdls.stop) = true →
      decide (a.hdl ≤ hdls.stop) = true := by
    intro a b h hb
    simp only [decide_eq_true_eq] at hb ⊢
    omega
  have hij : (s.attr.countP fun a => decide (a.hdl < hdls.start)) ≤
      s.attr.countP fun a => decide (a.hdl ≤ hdls.stop) :=
    List.countP_mono_left (by
      intro a _ h
      simp only [decide_eq_true_eq] at h ⊢
      omega)
  have hi0n : (s.attr.countP fun a => decide (a.hdl < hdls.start)) ≤ s.attr.length :=
    List.countP_le_length _
  have htk : s.attr.take (s.attr.countP fun a => decide (a.hdl < hdls.start))
      = (s.attr.take (s.attr.countP fun a => decide (a.hdl ≤ hdls.stop))).take
          (s.attr.countP fun a => decide (a.hdl < hdls.start)) := by
    rw [List.take_take]
    congr 1
    omega
  have hdecomp : s.attr.take (s.attr.countP fun a => decide (a.hdl < hdls.start)) ++
      ((s.attr.take (s.attr.countP fun a => decide (a.hdl ≤ hdls.stop))).drop
          (s.attr.countP fun a => decide (a.hdl < hdls.start)) ++
        s.attr.drop (s.attr.countP fun a => decide (a.hdl ≤ hdls.stop))) = s.attr := by
    rw [← List.append_assoc, htk, List.take_append_drop, List.take_append_drop]
  rw [Schema.range_checks_spec]
  conv_rhs => rw [← hdecomp]
  rw [List.enumFrom_append, List.enumFrom_append]
  have hlen : (s.attr.take (s.attr.countP fun a => decide (a.hdl < hdls.start))).length
      = s.attr.countP fun a => decide (a.hdl < hdls.start) := by
    rw [List.length_take]
    omega
  rw [hlen]
  simp only [Nat.zero_add]
  rw [List.filter_append, List.filter_append, List.map_append, List.map_append]
  have hf1 : (List.enumFrom 0
        (s.attr.take (s.attr.countP fun a => decide (a.hdl < hdls.start)))).filter
      (fun p => decide (hdls.start ≤ p.2.hdl) && decide (p.2.hdl ≤ hdls.stop) &&
        decide (s.typ p.2 = uuid)) = [] := by
    rw [List.filter_eq_nil_iff]
    intro p hp
    have hmem := snd_mem_of_mem_enumFrom hp
    have hP1 := mem_take_countP s.attr hs _ hdc1 p.2 hmem
    simp only [decide_eq_true_eq] at hP1
    simp only [Bool.and_eq_true, decide_eq_true_eq]
    rintro ⟨⟨h1, -⟩, -⟩
    omega
  have hf3 : ∀ n, (List.enumFrom n
        (s.attr.drop (s.attr.countP fun a => decide (a.hdl ≤ hdls.stop)))).filter
      (fun p => decide (hdls.start ≤ p.2.hdl) && decide (p.2.hdl ≤ hdls.stop) &&
        decide (s.typ p.2 = uuid)) = [] := by
    intro n
    rw [List.filter_eq_nil_iff]
    intro p hp
    have hmem := snd_mem_of_mem_enumFrom hp
    have hP2 := mem_drop_countP s.attr hs _ hdc2 p.2 hmem
    simp only [decide_eq_false_iff_not, not_le] at hP2
    simp only [Bool.and_eq_true, decide_eq_true_eq]
    rintro ⟨⟨-, h2⟩, -⟩
    omega
  have hf2 : (List.enumFrom (s.attr.countP fun a => decide (a.hdl < hdls.start))
        ((s.attr.take (s.attr.countP fun a => decide (a.hdl ≤ hdls.stop))).drop
          (s.attr.countP fun a => decide (a.hdl < hdls.start)))).filter
      (fun p => decide (hdls.start ≤ p.2.hdl) && decide (p.2.hdl ≤ hdls.stop) &&
        decide (s.typ p.2 = uuid))
      = (List.enumFrom (s.attr.countP fun a => decide (a.hdl < hdls.start))
        ((s.attr.take (s.attr.countP fun a => decide (a.hdl ≤ hdls.stop))).drop
          (s.attr.countP fun a => decide (a.hdl < hdls.start)))).filter
      (fun p => decide (s.typ p.2 = uuid)) := by
    refine List.filter_congr ?_
    intro p hp
    have hmem2 := snd_mem_of_mem_enumFrom hp
    have hub := mem_take_countP s.attr hs _ hdc2 p.2 (List.mem_of_mem_drop hmem2)
    have hsort2 : ((s.attr.take (s.attr.countP fun a =>
        decide (a.hdl ≤ hdls.stop)))).Pairwise (fun a b => a.hdl < b.hdl) :=
      hs.sublist (List.take_sublist _ _)
    have hcpt : ((s.attr.take (s.attr.countP fun a =>
          decide (a.hdl ≤ hdls.stop)))).countP (fun a => decide (a.hdl < hdls.start))
        = s.attr.countP fun a => decide (a.hdl < hdls.start) :=
      countP_take_of_le s.attr hs _ _ hdc1 (by
        intro a _ h
        simp only [decide_eq_true_eq] at h ⊢
        omega)
    have hmem3 : p.2 ∈ (s.attr.take (s.attr.countP fun a =>
        decide (a.hdl ≤ hdls.stop))).drop
          (((s.attr.take (s.attr.countP fun a => decide (a.hdl ≤ hdls.stop)))).countP
            (fun a => decide (a.hdl < hdls.start))) := by
      rw [hcpt]
      exact hmem2
    have hlb := mem_drop_countP _ hsort2 _ hdc1 p.2 hmem3
    simp only [decide_eq_true_eq] at hub
    simp only [decide_eq_false_iff_not, not_lt] at hlb
    have e1 : decide (hdls.start ≤ p.2.hdl) = true := by
      simp only [decide_eq_true_eq]
      omega
    have e2 : decide (p.2.hdl ≤ hdls.stop) = true := by
      simp only [decide_eq_true_eq]
      omega
    rw [e1, e2]
    simp
  rw [hf1, hf2, hf3, List.map_nil, List.nil_append, List.append_nil]
  rw [rangeChecks_filterMap s req uuid]

/-- The code-side check collection equals the spec-side one on any well-formed schema
and ordered, valid handle range. -/
theorem rangeChecks_eq (s : Schema) (req : Request) (hdls : HandleRange) (uuid : Nat)
    (hwf : wfAttrs s.attr) (hpos : 1 ≤ hdls.start) (hss : hdls.start ≤ hdls.stop) :
    s.rangeChecks req hdls uuid = s.range_checks_spec req hdls uuid := by
  by_cases hin : (s.attr.countP fun a => decide (a.hdl < hdls.start)) < s.attr.length
  · by_cases hjp : 0 < s.attr.countP fun a => decide (a.hdl ≤ hdls.stop)
    · rw [Schema.rangeChecks, subset_char_some s hdls hwf hpos hss hin hjp]
      exact rangeChecks_main s req hdls uuid hwf hss
    · rw [Schema.rangeChecks, subset_char_none_lo s hdls hwf hpos hss hjp]
      refine Eq.symm ?_
      have hall : ∀ a ∈ s.attr, hdls.stop < a.hdl := by
        intro a hmem
        have h0 : s.attr.countP (fun a => decide (a.hdl ≤ hdls.stop)) = 0 := by omega
        have := List.countP_eq_zero.mp h0 a hmem
        simp only [decide_eq_true_eq] at this
        omega
      exact spec_nil_of_all_gt s req hdls uuid hall
  · rw [Schema.rangeChecks, subset_char_none_hi s hdls hwf hpos hin]
    refine Eq.symm ?_
    have hall : ∀ a ∈ s.attr, a.hdl < hdls.start := by
      have h1 : (s.attr.countP fun a => decide (a.hdl < hdls.start)) ≤ s.attr.length :=
        List.countP_le_length _
      have hlen : (s.attr.countP fun a => decide (a.hdl < hdls.start))
          = s.attr.length := by omega
      intro a hmem
      have := List.countP_eq_length.mp hlen a hmem
      simpa using this
    exact spec_nil_of_all_lt s req hdls uuid hall

/-- C1: on a well-formed schema and an ordered range of valid handles,
`try_range_access` behaves exactly as specified: it collects the attributes in the
range whose type equals the UUID in handle order and runs the access check on each; an
empty collection yields `AttributeNotFound` on the range start, a failing first check
returns that error, and otherwise the prefix of handles whose check succeeded is
returned, stopping at the first failure. -/
theorem C1_try_range_access (s : Schema) (req : Request) (hdls : HandleRange)
    (uuid : Nat) (hwf : wfAttrs s.attr) (hpos : 1 ≤ hdls.start)
    (hss : hdls.start ≤ hdls.stop) :
    s.try_range_access req hdls uuid = s.try_range_access_spec req hdls uuid := by
  rw [Schema.try_range_access, Schema.try_range_access_spec,
    rangeChecks_eq s req hdls uuid hwf hpos hss]
  cases hres : s.range_checks_spec req hdls uuid with
  | nil => rfl
  | cons r rest => cases r <;> rfl

/-- Witness for C1 at the S5 schema, request and range. -/
theorem C1_try_range_access_witness :
    s5schema.try_range_access s5req s5range s5uuid
      = s5schema.try_range_access_spec s5req s5range s5uuid :=
  C1_try_range_access s5schema s5req s5range s5uuid ⟨by decide, by decide⟩
    (by decide) (by decide)

end Burble
